import Mathlib

/-!
Verification of the document extraction and incremental-indexing subsystem of
mcp-local-rag against its natural-language specification.

The Lean definitions below are a shallow embedding of the Python source:

* `src/mcp_local_rag/processing/extractors.py` — table reconstruction
  (`_needs_html_table`, `_build_html_table`, `_build_markdown_table`), the
  Gemini retry/backoff controller (`_get_retry_after_seconds`,
  `_gemini_ocr_pdf_page_with_retry`), and the hybrid page-by-page PDF
  extraction orchestrator (`extract_pdf`).
* `src/mcp_local_rag/storage/metadata.py` — the SQLite-backed metadata store
  (documents table and page cache), modelled as pure state.
* `src/mcp_local_rag/storage/vectors.py` — the vector chunk store, modelled
  as pure state.
* `src/mcp_local_rag/tools/indexing.py` — `_index_single_file`.

External effects (file system reads, network calls, clock, the embedding
model) are inputs to the model; machine floats (mtimes, retry delays) are
modelled as rationals.
-/

instance {ε α : Type} [DecidableEq ε] [DecidableEq α] :
    DecidableEq (Except ε α)
  | .error e, .error f =>
    if h : e = f then .isTrue (by rw [h])
    else .isFalse (by intro hc; cases hc; exact h rfl)
  | .error _, .ok _ => .isFalse (by intro hc; cases hc)
  | .ok _, .error _ => .isFalse (by intro hc; cases hc)
  | .ok a, .ok b =>
    if h : a = b then .isTrue (by rw [h])
    else .isFalse (by intro hc; cases hc; exact h rfl)

namespace McpLocalRag

/-! ## Table model (extractors.py, Azure Document Intelligence tables)

`DocumentTableCell` mirrors the Azure DI cell fields consumed by the source:
`row_index`, `column_index`, optional `row_span` / `column_span` (Python reads
them as `cell.row_span or 1`, so `None` and `0` both mean 1), optional `kind`
(`cell.kind or "content"`, so `None` and `""` both mean `content`), and
`content`. -/

structure DocumentTableCell where
  row_index : Nat
  column_index : Nat
  row_span : Option Nat
  column_span : Option Nat
  kind : Option String
  content : String
deriving DecidableEq

structure TableText where
  content : String
deriving DecidableEq

structure DocumentTable where
  row_count : Nat
  column_count : Nat
  cells : List DocumentTableCell
  caption : Option TableText
  footnotes : List TableText
deriving DecidableEq

/-- Python `max(a, b)` on naturals (spelled out for easy reduction). -/
def natMax (a b : Nat) : Nat :=
  if a ≤ b then b else a

/-- Python `x or 1` on an optional int: `None` and `0` are falsy. -/
def spanOr1 : Option Nat → Nat
  | none => 1
  | some n => if n = 0 then 1 else n

/-- Python `cell.kind or "content"`: `None` and `""` are falsy. -/
def kindOrContent : Option String → String
  | none => "content"
  | some s => if s = "" then "content" else s

/-- Source: `kind in ("columnHeader", "rowHeader", "stubHead")`. -/
def isHeaderKind (s : String) : Bool :=
  s = "columnHeader" || s = "rowHeader" || s = "stubHead"

/-- Python `s.replace("\n", " ")`: the pattern is the single newline
character, so the replacement maps characters pointwise. -/
def pyReplaceNewlines (s : String) : String :=
  String.mk (s.toList.map fun ch => if ch = '\n' then ' ' else ch)

/-- Python `s.strip()`: drop leading and trailing whitespace. -/
def pyStrip (s : String) : String :=
  String.mk
    (((s.toList.dropWhile Char.isWhitespace).reverse.dropWhile
      Char.isWhitespace).reverse)

/-- Source: `cell.content.replace("\n", " ").strip()`. -/
def cleanCellContent (s : String) : String :=
  pyStrip (pyReplaceNewlines s)

/-- Source: `_needs_html_table`: true iff any cell spans multiple rows or columns. -/
def needsHtmlTable (t : DocumentTable) : Bool :=
  t.cells.any fun cell =>
    spanOr1 cell.row_span > 1 || spanOr1 cell.column_span > 1

/-! ### Markdown path (`_build_markdown_table`)

The Python builder allocates
`grid = [["" for _ in range(col_count)] for _ in range(row_count)]` and then
performs `grid[r][c] = ...` for every cell; an out-of-range index raises
`IndexError`.  List assignment is modelled with `Option`: `none` is the
raised `IndexError`. -/

/-- Python `xs[i] = v` on a list: `none` models `IndexError`. -/
def listSet (xs : List String) (i : Nat) (v : String) : Option (List String) :=
  match xs, i with
  | [], _ => none
  | _ :: tl, 0 => some (v :: tl)
  | hd :: tl, i + 1 => (listSet tl i v).map (hd :: ·)

/-- Python `grid[r][c] = v`; `none` models `IndexError`. -/
def gridSet (g : List (List String)) (r c : Nat) (v : String) :
    Option (List (List String)) :=
  match g, r with
  | [], _ => none
  | row :: rest, 0 => (listSet row c v).map (· :: rest)
  | row :: rest, r + 1 => (gridSet rest r c v).map (row :: ·)

/-- Reading a grid position: `grid[r][c]`. -/
def gridGet (g : List (List String)) (r c : Nat) : Option String :=
  g[r]?.bind fun row => row[c]?

/-- The cell-placement loop of `_build_markdown_table`: writes each cell's
cleaned content at `(row_index, column_index)` and records the row index of
every header-kind cell (the Python `header_rows` set, modelled as the list of
added indices — only membership and maximum are consumed). -/
def fillGrid : List DocumentTableCell → List (List String) → List Nat →
    Option (List (List String) × List Nat)
  | [], g, hr => some (g, hr)
  | cell :: rest, g, hr =>
    match gridSet g cell.row_index cell.column_index
        (cleanCellContent cell.content) with
    | none => none
    | some g2 =>
      fillGrid rest g2
        (if isHeaderKind (kindOrContent cell.kind) then hr ++ [cell.row_index]
         else hr)

/-- Source: `"| " + " | ".join(row) + " |"`. -/
def mdRow (row : List String) : String :=
  "| " ++ String.intercalate " | " row ++ " |"

/-- Source: `"| " + " | ".join(["---"] * col_count) + " |"`. -/
def mdSeparatorRow (colCount : Nat) : String :=
  mdRow (List.replicate colCount "---")

/-- The rendering loop of `_build_markdown_table`: one line per grid row,
with the separator line appended right after row `sepAfter`. -/
def mdGridLines (g : List (List String)) (sepAfter colCount : Nat) :
    List String :=
  (g.enum.map fun p =>
    if p.1 = sepAfter then [mdRow p.2, mdSeparatorRow colCount]
    else [mdRow p.2]).flatten

/-- Caption lines (`if table.caption:` — a present caption is truthy). -/
def captionLines : Option TableText → List String
  | none => []
  | some cap => ["**" ++ pyStrip cap.content ++ "**", ""]

/-- Footnote lines (the Python guard `if table.footnotes:` is equivalent to
looping over the possibly-empty list). -/
def footnoteLines (fns : List TableText) : List String :=
  (fns.map fun fn => ["", "_" ++ pyStrip fn.content ++ "_"]).flatten

/-! ### HTML path (`_build_html_table`) -/

/-- The Python `header_rows` set of `_build_html_table`: row indices that
contain at least one header-kind cell (membership is all that is consumed). -/
def htmlHeaderRows (cells : List DocumentTableCell) : List Nat :=
  (cells.filter fun cell => isHeaderKind (kindOrContent cell.kind)).map
    (·.row_index)

/-- Python `by_row[r]` after grouping `table.cells` with a `defaultdict`:
grouping preserves the original relative order, i.e. the sublist of cells
with the given row index. -/
def byRow (cells : List DocumentTableCell) (r : Nat) : List DocumentTableCell :=
  cells.filter fun cell => cell.row_index = r

/-- Python `sorted(cells_in_row, key=lambda c: c.column_index)` — a stable
sort by column index (Python's `sorted` is stable; `List.insertionSort` with
`≤` on the key is stable as well, so both produce the same ordering). -/
def sortByColumn (cells : List DocumentTableCell) : List DocumentTableCell :=
  cells.insertionSort fun a b => a.column_index ≤ b.column_index

/-- All `(row, col)` positions covered by a cell:
`for dr in range(rs): for dc in range(cs): occupied.add(...)`. -/
def spannedPositions (cell : DocumentTableCell) : List (Nat × Nat) :=
  (List.range (spanOr1 cell.row_span)).flatMap fun dr =>
    (List.range (spanOr1 cell.column_span)).map fun dc =>
      (cell.row_index + dr, cell.column_index + dc)

/-- One emitted `<td>`/`<th>` fragment. -/
def renderHtmlCell (tag : String) (rs cs : Nat) (content : String) : String :=
  let attrs :=
    (if rs > 1 then " rowspan=\"" ++ toString rs ++ "\"" else "") ++
    (if cs > 1 then " colspan=\"" ++ toString cs ++ "\"" else "")
  "<" ++ tag ++ attrs ++ ">" ++ content ++ "</" ++ tag ++ ">"

/-- The inner cell loop of `_build_html_table` for one row: skip cells whose
top-left position is occupied, otherwise mark all spanned positions occupied
and emit the cell.  The tag is `th` iff the *row* is in `header_rows`
(`tag = "th" if r_idx in header_rows else "td"`). -/
def htmlRowCells (headerRows : List Nat) (rIdx : Nat) :
    List DocumentTableCell → List (Nat × Nat) →
    (List String × List (Nat × Nat))
  | [], occupied => ([], occupied)
  | cell :: rest, occupied =>
    if (cell.row_index, cell.column_index) ∈ occupied then
      htmlRowCells headerRows rIdx rest occupied
    else
      let rs := spanOr1 cell.row_span
      let cs := spanOr1 cell.column_span
      let occupied2 := occupied ++ spannedPositions cell
      let tag := if rIdx ∈ headerRows then "th" else "td"
      let res := htmlRowCells headerRows rIdx rest occupied2
      (renderHtmlCell tag rs cs (cleanCellContent cell.content) :: res.1,
        res.2)

/-- The outer row loop of `_build_html_table` over `range(table.row_count)`,
threading the `occupied` set. -/
def htmlRowsLoop (cells : List DocumentTableCell) (headerRows : List Nat) :
    List Nat → List (Nat × Nat) → List String
  | [], _ => []
  | rIdx :: rest, occupied =>
    let rowRes := htmlRowCells headerRows rIdx (sortByColumn (byRow cells rIdx))
      occupied
    ("  <tr>" ++ String.join rowRes.1 ++ "</tr>") ::
      htmlRowsLoop cells headerRows rest rowRes.2

/-- Source: `_build_html_table`. -/
def buildHtmlTable (t : DocumentTable) : String :=
  let rowsHtml := htmlRowsLoop t.cells (htmlHeaderRows t.cells)
    (List.range t.row_count) []
  String.intercalate "\n"
    (captionLines t.caption ++ ["<table>"] ++ rowsHtml ++ ["</table>"] ++
      footnoteLines t.footnotes)

/-- Source: `_build_markdown_table`: dispatches to the HTML path when any cell spans,
otherwise builds the `row_count × col_count` grid.  `Except.error` models the
`IndexError` raised by an out-of-range `grid[r][c]` assignment. -/
def buildMarkdownTable (t : DocumentTable) : Except String String :=
  if needsHtmlTable t then .ok (buildHtmlTable t)
  else
    match fillGrid t.cells
        (List.replicate t.row_count (List.replicate t.column_count "")) [] with
    | none => .error "IndexError: list assignment index out of range"
    | some (grid, headerRows) =>
      let sepAfter := headerRows.foldl natMax 0
      .ok (String.intercalate "\n"
        (captionLines t.caption ++
          mdGridLines grid sepAfter t.column_count ++
          footnoteLines t.footnotes))

/-! ### Spec-side table definitions

These follow the wording of the specification / claims (not the source) and
are compared with the source-derived builders above. -/

/-- Spec wording: the text "placed at `(row_index, col_index)`" — the grid
value at a position is the cleaned text of the cell occupying it, `""` if no
cell does. -/
def gridAt (t : DocumentTable) (r c : Nat) : String :=
  match t.cells.find? fun cell =>
      cell.row_index = r && cell.column_index = c with
  | some cell => cleanCellContent cell.content
  | none => ""

/-- Spec wording: a row is a header row if any cell in it has kind in
`{columnHeader, rowHeader, stubHead}`. -/
def isHeaderRowSpec (cells : List DocumentTableCell) (r : Nat) : Bool :=
  cells.any fun cell =>
    cell.row_index = r && isHeaderKind (kindOrContent cell.kind)

/-- Spec wording: the last row that contains a header-kind cell, or row 0 if
none does. -/
def sepAfterSpec (t : DocumentTable) : Nat :=
  (((List.range t.row_count).filter (isHeaderRowSpec t.cells)).getLast?).getD 0

/-- Spec wording: data row `r` of the `row_count × col_count` grid. -/
def dataRowSpec (t : DocumentTable) (r : Nat) : List String :=
  (List.range t.column_count).map (gridAt t r)

/-- Spec wording: the `row_count` data rows with the single header/body
separator row inserted immediately after the last header row. -/
def bodyLinesSpec (t : DocumentTable) : List String :=
  (List.range t.row_count).flatMap fun r =>
    if r = sepAfterSpec t then [mdRow (dataRowSpec t r), mdSeparatorRow t.column_count]
    else [mdRow (dataRowSpec t r)]

/-- The pipe table described by the spec/claim for the markdown path. -/
def specMarkdownTable (t : DocumentTable) : String :=
  String.intercalate "\n"
    (captionLines t.caption ++ bodyLinesSpec t ++ footnoteLines t.footnotes)

/-- Claim C7 wording: a cell renders as `<th>` iff that cell's own kind is a
header kind. -/
def claimCellTag (cell : DocumentTableCell) : String :=
  if isHeaderKind (kindOrContent cell.kind) then "th" else "td"

/-- Amended C7 wording: a cell renders as `<th>` iff its row contains some
header-kind cell. -/
def rowHasHeaderCell (cells : List DocumentTableCell) (r : Nat) : Bool :=
  cells.any fun cell =>
    cell.row_index = r && isHeaderKind (kindOrContent cell.kind)

/-- Spec wording, one row of the HTML path: iterate the row's cells in
column order, skip a cell whose top-left position is already in the occupied
set, otherwise add every spanned position to the occupied set and emit the
cell with the given tag rule. -/
def specHtmlRowCells (tagOf : DocumentTableCell → String) :
    List DocumentTableCell → Finset (Nat × Nat) →
    (List String × Finset (Nat × Nat))
  | [], occupied => ([], occupied)
  | cell :: rest, occupied =>
    if (cell.row_index, cell.column_index) ∈ occupied then
      specHtmlRowCells tagOf rest occupied
    else
      let occupied2 :=
        (spannedPositions cell).foldl (fun s p => insert p s) occupied
      let res := specHtmlRowCells tagOf rest occupied2
      (renderHtmlCell (tagOf cell) (spanOr1 cell.row_span)
          (spanOr1 cell.column_span) (cleanCellContent cell.content) :: res.1,
        res.2)

/-- Spec wording, all rows of the HTML path: one `<tr>` per grid row, the
occupied set threaded through in row-major order. -/
def specHtmlRowsLoop (cells : List DocumentTableCell)
    (tagOf : Nat → DocumentTableCell → String) :
    List Nat → Finset (Nat × Nat) → List String
  | [], _ => []
  | rIdx :: rest, occupied =>
    let rowRes := specHtmlRowCells (tagOf rIdx)
      (sortByColumn (byRow cells rIdx)) occupied
    ("  <tr>" ++ String.join rowRes.1 ++ "</tr>") ::
      specHtmlRowsLoop cells tagOf rest rowRes.2

/-- The HTML table claimed by C7 as stated: `<th>` iff the cell's own kind is
a header kind. -/
def specHtmlTableClaim (t : DocumentTable) : String :=
  let rowsHtml := specHtmlRowsLoop t.cells (fun _ cell => claimCellTag cell)
    (List.range t.row_count) ∅
  String.intercalate "\n"
    (captionLines t.caption ++ ["<table>"] ++ rowsHtml ++ ["</table>"] ++
      footnoteLines t.footnotes)

/-- The HTML table of the amended claim C7: `<th>` iff the cell's row
contains a header-kind cell. -/
def specHtmlTableAmended (t : DocumentTable) : String :=
  let rowsHtml := specHtmlRowsLoop t.cells
    (fun rIdx _ => if rowHasHeaderCell t.cells rIdx then "th" else "td")
    (List.range t.row_count) ∅
  String.intercalate "\n"
    (captionLines t.caption ++ ["<table>"] ++ rowsHtml ++ ["</table>"] ++
      footnoteLines t.footnotes)

/-! ## Retry/Backoff controller (extractors.py)

`_get_retry_after_seconds` and `_gemini_ocr_pdf_page_with_retry`.  Seconds
are modelled as rationals (`float` values in Python; the conversion
`float(digit_string)` is exact).  The `Retry-After` header is kept as a raw
string so the Python `strip`/`isdigit` logic is modelled faithfully;
`parsedate_to_datetime` (an RFC-date parser from the standard library) is an
oracle parameter returning the UTC timestamp in seconds, `none` when the
string is unparseable (in which case Python raises `ValueError`).  A missing
`response` object, missing `headers`, and a missing `Retry-After` key all
take one of the three `raise error` branches; they are collapsed into
`retryAfterHeader = none`. -/

structure ClientError where
  code : Nat
  retryAfterHeader : Option String
deriving DecidableEq

inductive OcrError where
  | client (e : ClientError)
  | valueError (s : String)
  | runtime (s : String)
  | other (s : String)
deriving DecidableEq

/-- Result of one OCR attempt (`_gemini_ocr_pdf_page`): success, a
`google.genai.errors.ClientError`, or an exception of any other class. -/
inductive OcrOutcome where
  | ok (text : String)
  | clientErr (e : ClientError)
  | otherErr (s : String)
deriving DecidableEq

/-- Python `max(a, b)` on rationals (spelled out so that it evaluates by
kernel reduction). -/
def ratMax (a b : ℚ) : ℚ :=
  if a ≤ b then b else a

/-- Python `str.isdigit`: nonempty and every character a digit. -/
def pyIsDigit (s : String) : Bool :=
  !s.isEmpty && s.toList.all Char.isDigit

/-- Numeric value of a digit string (`float(retry_after)` is exact on digit
strings; 48 is the code point of the digit zero). -/
def digitsToNat (s : String) : Nat :=
  s.toList.foldl (fun acc ch => acc * 10 + (ch.toNat - 48)) 0

/-- Source: `_get_retry_after_seconds`: re-raises the original error when no
`Retry-After` value is available; returns the plain numeric value for a
digit string; otherwise parses an HTTP date and clamps the remaining delay
to ≥ 0. -/
def getRetryAfterSeconds (parsedate : String → Option ℚ) (now : ℚ)
    (e : ClientError) : Except OcrError ℚ :=
  match e.retryAfterHeader with
  | none => .error (.client e)
  | some raw =>
    let ra := pyStrip raw
    if pyIsDigit ra then .ok (digitsToNat ra : ℚ)
    else
      match parsedate ra with
      | none => .error (.valueError ra)
      | some retryAt => .ok (ratMax 0 (retryAt - now))

/-- Instrumented result of `_gemini_ocr_pdf_page_with_retry`: the value or
raised error, the number of OCR attempts performed, and the backoff sleeps
performed in order. -/
structure RetryRun where
  result : Except OcrError String
  calls : Nat
  sleeps : List ℚ
deriving DecidableEq

/-- The `for attempt in range(max_retries + 1)` loop of
`_gemini_ocr_pdf_page_with_retry`; `fuel` is the number of loop iterations
remaining, so the loop body runs with `fuel = maxRetries + 1 - attempt`.
On a `ClientError`, the error is re-raised unless `code == 429` and
`attempt < max_retries`; otherwise the retry delay is computed (which may
itself raise), slept, and the loop continues.  Falling out of the loop
raises the final `RuntimeError` (dead code in the source, kept for
fidelity). -/
def retryGo (outcomes : Nat → OcrOutcome) (parsedate : String → Option ℚ)
    (now : ℚ) (maxRetries : Nat) : Nat → Nat → RetryRun
  | _, 0 => ⟨.error (.runtime "Gemini OCR retries exhausted."), 0, []⟩
  | attempt, fuel + 1 =>
    match outcomes attempt with
    | .ok s => ⟨.ok s, 1, []⟩
    | .otherErr e => ⟨.error (.other e), 1, []⟩
    | .clientErr ce =>
      if ce.code = 429 ∧ attempt < maxRetries then
        match getRetryAfterSeconds parsedate now ce with
        | .error err => ⟨.error err, 1, []⟩
        | .ok d =>
          let rest := retryGo outcomes parsedate now maxRetries (attempt + 1) fuel
          ⟨rest.result, rest.calls + 1, d :: rest.sleeps⟩
      else ⟨.error (.client ce), 1, []⟩

/-- Source: `_gemini_ocr_pdf_page_with_retry` with `max_retries = maxRetries`
(default 2 in the source). -/
def geminiOcrWithRetry (outcomes : Nat → OcrOutcome)
    (parsedate : String → Option ℚ) (now : ℚ) (maxRetries : Nat) : RetryRun :=
  retryGo outcomes parsedate now maxRetries 0 (maxRetries + 1)

/-- A `Retry-After` value the controller can interpret: a digit string or a
date the parser accepts. -/
def usableHint (parsedate : String → Option ℚ) (ce : ClientError) : Bool :=
  match ce.retryAfterHeader with
  | none => false
  | some raw => pyIsDigit (pyStrip raw) || (parsedate (pyStrip raw)).isSome

/-- The backoff delay the spec describes: the numeric value of a digit
string, else the remaining time until the parsed date clamped to ≥ 0. -/
def hintDelay (parsedate : String → Option ℚ) (now : ℚ) (ce : ClientError) :
    ℚ :=
  match ce.retryAfterHeader with
  | none => 0
  | some raw =>
    if pyIsDigit (pyStrip raw) then (digitsToNat (pyStrip raw) : ℚ)
    else
      match parsedate (pyStrip raw) with
      | some retryAt => ratMax 0 (retryAt - now)
      | none => 0

/-- An outcome that is a 429 `ClientError` carrying a usable retry hint. -/
def usable429 (parsedate : String → Option ℚ) : OcrOutcome → Bool
  | .clientErr ce => ce.code = 429 && usableHint parsedate ce
  | _ => false

/-- The backoff delay associated with an outcome (zero for non-client
outcomes, which never sleep). -/
def outcomeDelay (parsedate : String → Option ℚ) (now : ℚ) :
    OcrOutcome → ℚ
  | .clientErr ce => hintDelay parsedate now ce
  | _ => 0

/-! ## Page cache and metadata store (storage/metadata.py)

The SQLite tables are modelled as lists of rows; `INSERT OR REPLACE` removes
the row with the conflicting primary key and appends/prepends the new row;
timestamps are abstract naturals supplied by the caller. -/

/-- The `page_cache` table: rows keyed by `(file_hash, page_index)`. -/
abbrev PageCacheState := List ((String × Nat) × String)

/-- Source: `SELECT content FROM page_cache WHERE file_hash = ? AND page_index = ?`. -/
def getCachedPageRow (cache : PageCacheState) (h : String) (i : Nat) :
    Option String :=
  cache.lookup (h, i)

/-- Source: `INSERT OR REPLACE INTO page_cache ...`: the conflicting row (if any) is
replaced. -/
def cachePageRow (cache : PageCacheState) (h : String) (i : Nat)
    (content : String) : PageCacheState :=
  ((h, i), content) :: cache.filter fun e => !(e.1 = (h, i) : Bool)

/-- Source: `DELETE FROM page_cache WHERE file_hash = ?`, returning the remaining
table and the number of rows deleted. -/
def clearPageCacheRows (cache : PageCacheState) (h : String) :
    PageCacheState × Nat :=
  (cache.filter fun e => !(e.1.1 = h : Bool),
    (cache.filter fun e => (e.1.1 = h : Bool)).length)

/-- One row of the `documents` table. -/
structure DocumentRecord where
  doc_id : String
  file_path : String
  file_hash : String
  file_mtime : ℚ
  file_type : String
  collection : String
  chunk_count : Nat
  markdown_path : String
  indexed_at : Nat
deriving DecidableEq

/-- The metadata store state: the `documents` table (primary key `doc_id`)
and the `page_cache` table. -/
structure MetadataStore where
  documents : List DocumentRecord
  page_cache : PageCacheState
deriving DecidableEq

/-- Source: `SELECT * FROM documents WHERE file_path = ? AND collection = ?`
(first matching row). -/
def MetadataStore.get_document_by_path (st : MetadataStore)
    (path collection : String) : Option DocumentRecord :=
  st.documents.find? fun d => d.file_path = path && d.collection = collection

/-- Source: `MetadataStore.add_document`: `INSERT OR REPLACE INTO documents ...` —
replaces any prior row with this `doc_id` and stamps `indexed_at` with the
current time.  Note the required `markdown_path` parameter. -/
def MetadataStore.add_document (st : MetadataStore)
    (doc_id file_path file_hash : String) (file_mtime : ℚ)
    (file_type collection : String) (chunk_count : Nat)
    (markdown_path : String) (now : Nat) : MetadataStore :=
  { st with
    documents :=
      (st.documents.filter fun d => !(d.doc_id = doc_id : Bool)) ++
        [⟨doc_id, file_path, file_hash, file_mtime, file_type, collection,
          chunk_count, markdown_path, now⟩] }

/-- Source: `UPDATE documents SET file_mtime = ? WHERE doc_id = ?`. -/
def MetadataStore.update_document_mtime (st : MetadataStore) (docId : String)
    (mtime : ℚ) : MetadataStore :=
  { st with
    documents := st.documents.map fun d =>
      if d.doc_id = docId then { d with file_mtime := mtime } else d }

/-- Source: `MetadataStore.get_cached_page`. -/
def MetadataStore.get_cached_page (st : MetadataStore) (h : String) (i : Nat) :
    Option String :=
  getCachedPageRow st.page_cache h i

/-- Source: `MetadataStore.cache_page`. -/
def MetadataStore.cache_page (st : MetadataStore) (h : String) (i : Nat)
    (content : String) : MetadataStore :=
  { st with page_cache := cachePageRow st.page_cache h i content }

/-- Source: `MetadataStore.clear_page_cache`, returning the new state and the count
of deleted rows. -/
def MetadataStore.clear_page_cache (st : MetadataStore) (h : String) :
    MetadataStore × Nat :=
  ((⟨st.documents, (clearPageCacheRows st.page_cache h).1⟩ : MetadataStore),
    (clearPageCacheRows st.page_cache h).2)

/-! ## Vector store (storage/vectors.py)

Chunks are rows with a payload; embeddings live outside the model (the
vector values never influence the control flow verified here). -/

structure VectorChunk where
  text : String
  doc_id : String
  file_path : String
  collection : String
  chunk_index : Nat
deriving DecidableEq

structure VectorStore where
  chunks : List VectorChunk
deriving DecidableEq

/-- Source: `VectorStore.add_chunks`: no-op on an empty list, otherwise upserts one
point per chunk with its position as `chunk_index`; returns the number of
points written. -/
def VectorStore.add_chunks (vs : VectorStore) (chunks : List String)
    (doc_id file_path collection : String) : VectorStore × Nat :=
  if chunks.length = 0 then (vs, 0)
  else
    (⟨vs.chunks ++ chunks.enum.map fun p =>
      ⟨p.2, doc_id, file_path, collection, p.1⟩⟩,
      chunks.length)

/-- Source: `VectorStore.delete_document_chunks`: deletes all points with this
`doc_id`, returning the count present before deletion. -/
def VectorStore.delete_document_chunks (vs : VectorStore) (doc_id : String) :
    VectorStore × Nat :=
  (⟨vs.chunks.filter fun c => !(c.doc_id = doc_id : Bool)⟩,
    (vs.chunks.filter fun c => (c.doc_id = doc_id : Bool)).length)

/-! ## Hybrid page-by-page PDF extraction (extract_pdf, extractors.py)

The per-page loop of `extract_pdf` after the Azure and pymupdf fast paths.
A `PageSpec` carries, for one physical page, the externally determined
facts: the OCR heuristic verdict (`should_ocr_page`), the local conversion
text (`pymupdf4llm.to_markdown` for that page), and the eventual outcome of
the page's Gemini OCR task (the value `_convert_and_cache_gemini_page`
would produce, after retries).  A completion schedule `σ` lists the task
page indices in the order their OCR tasks finish; `asyncio.gather` is
modelled by collecting `(page_index, outcome)` completion events in schedule
order and then reading one slot per task in task order. -/

inductive ExtractionMethod where
  | auto | azure | gemini | pymupdf
deriving DecidableEq

structure PageSpec where
  shouldOcr : Bool
  localText : String
  ocrText : Except String String
deriving DecidableEq

/-- An entry of `md_pages`: an inline string or a pending OCR task tagged
with its page index. -/
inductive PageItem where
  | inline (s : String)
  | task (pageIdx : Nat)
deriving DecidableEq

/-- The `use_gemini` decision of the per-page loop. -/
def useGemini (method : ExtractionMethod) (geminiConfigured : Bool)
    (p : PageSpec) : Bool :=
  match method with
  | .gemini => geminiConfigured
  | .auto => geminiConfigured && p.shouldOcr
  | _ => false

/-- The per-page decision loop of `extract_pdf`: cached pages are reused
inline, OCR pages become tasks, remaining pages are converted locally
(synchronously) and written through to the page cache.  `i` is the physical
index of the first page of the remaining list. -/
def decidePages (fileHash : String) (method : ExtractionMethod)
    (gemCfg : Bool) (st : MetadataStore) :
    List PageSpec → Nat → (List PageItem × MetadataStore)
  | [], _ => ([], st)
  | p :: rest, i =>
    match st.get_cached_page fileHash i with
    | some cached =>
      let r := decidePages fileHash method gemCfg st rest (i + 1)
      (.inline cached :: r.1, r.2)
    | none =>
      if useGemini method gemCfg p then
        let r := decidePages fileHash method gemCfg st rest (i + 1)
        (.task i :: r.1, r.2)
      else
        let r := decidePages fileHash method gemCfg
          (st.cache_page fileHash i p.localText) rest (i + 1)
        (.inline p.localText :: r.1, r.2)

/-- The eventual outcome of the OCR task for page `i`. -/
def ocrOutcomeAt (pages : List PageSpec) (i : Nat) : Except String String :=
  match pages.get? i with
  | some p => p.ocrText
  | none => .error "missing page"

/-- The page indices of the pending tasks, in `md_pages` order. -/
def tasksOf (items : List PageItem) : List Nat :=
  items.filterMap fun
    | .task i => some i
    | .inline _ => none

/-- Source: `_convert_and_cache_gemini_page` write-through, applied as each task
finishes: tasks complete in schedule order; a successful page is cached
before its task resolves, a failed page writes nothing. -/
def runTasks (fileHash : String) (pages : List PageSpec)
    (st : MetadataStore) : List Nat → MetadataStore
  | [] => st
  | i :: rest =>
    match ocrOutcomeAt pages i with
    | .ok text => runTasks fileHash pages (st.cache_page fileHash i text) rest
    | .error _ => runTasks fileHash pages st rest

/-- Source: `asyncio.gather(*tasks, return_exceptions=True)`: completion events are
recorded in schedule order, then the result list is assembled one slot per
task in task order (never in completion order). -/
def gatherResults (pages : List PageSpec) (tasks σ : List Nat) :
    List (Except String String) :=
  let events := σ.map fun i => (i, ocrOutcomeAt pages i)
  tasks.map fun i => (events.lookup i).getD (.error "gather missing")

/-- The `md_text` assembly loop: inline entries pass through, task entries
consume the next gathered result; a failed task contributes `""` and its
1-based page number to `failed_pages`.  `idx` is the position of the first
remaining item in `md_pages`. -/
def assembleGo : List PageItem → List (Except String String) → Nat →
    (List String × List Nat)
  | [], _, _ => ([], [])
  | .inline s :: rest, rs, idx =>
    let a := assembleGo rest rs (idx + 1)
    (s :: a.1, a.2)
  | .task _ :: _, [], _ => ([], [])
  | .task _ :: rest, r :: rs, idx =>
    let a := assembleGo rest rs (idx + 1)
    match r with
    | .ok text => (text :: a.1, a.2)
    | .error _ => ("" :: a.1, (idx + 1) :: a.2)

/-- The document-level failure message:
`f"Gemini OCR failed for {n} page(s) of {name}: pages {page_list}"`. -/
def ocrFailureMessage (fileName : String) (failedPages : List Nat) : String :=
  "Gemini OCR failed for " ++ toString failedPages.length ++
    " page(s) of " ++ fileName ++ ": pages " ++
    String.intercalate ", " (failedPages.map toString)

/-- Result of the hybrid path: the assembled content or the raised error,
plus the metadata store (page cache) state afterwards. -/
structure HybridResult where
  result : Except String String
  store : MetadataStore
deriving DecidableEq

/-- The hybrid page-by-page portion of `extract_pdf`: decide every page in
physical order, await all OCR tasks (in completion-schedule order `σ`,
caching successes), gather results positionally, assemble `md_text`, and
either raise naming all failed pages or join the page texts with a blank
line. -/
def extractPdfHybrid (fileName fileHash : String) (method : ExtractionMethod)
    (gemCfg : Bool) (pages : List PageSpec) (σ : List Nat)
    (st : MetadataStore) : HybridResult :=
  if (tasksOf (decidePages fileHash method gemCfg st pages 0).1).isEmpty then
    ⟨.ok (String.intercalate "\n\n"
        (assembleGo (decidePages fileHash method gemCfg st pages 0).1 [] 0).1),
      (decidePages fileHash method gemCfg st pages 0).2⟩
  else
    if (assembleGo (decidePages fileHash method gemCfg st pages 0).1
        (gatherResults pages
          (tasksOf (decidePages fileHash method gemCfg st pages 0).1) σ)
        0).2.isEmpty then
      ⟨.ok (String.intercalate "\n\n"
          (assembleGo (decidePages fileHash method gemCfg st pages 0).1
            (gatherResults pages
              (tasksOf (decidePages fileHash method gemCfg st pages 0).1) σ)
            0).1),
        runTasks fileHash pages
          (decidePages fileHash method gemCfg st pages 0).2 σ⟩
    else
      ⟨.error (ocrFailureMessage fileName
          (assembleGo (decidePages fileHash method gemCfg st pages 0).1
            (gatherResults pages
              (tasksOf (decidePages fileHash method gemCfg st pages 0).1) σ)
            0).2),
        runTasks fileHash pages
          (decidePages fileHash method gemCfg st pages 0).2 σ⟩

/-! ### Spec-side descriptions for the hybrid path -/

/-- Spec wording, per page: the `md_pages` entry a page produces — the
cached text inline, a task tagged with the page index, or the local
conversion text inline. -/
def specItem (fileHash : String) (method : ExtractionMethod) (gemCfg : Bool)
    (st : MetadataStore) (i : Nat) (p : PageSpec) : PageItem :=
  match st.get_cached_page fileHash i with
  | some c => .inline c
  | none => if useGemini method gemCfg p then .task i else .inline p.localText

/-- The page indices fanned out as OCR tasks by the hybrid path. -/
def hybridTasks (fileHash : String) (method : ExtractionMethod)
    (gemCfg : Bool) (st : MetadataStore) (pages : List PageSpec) : List Nat :=
  tasksOf (decidePages fileHash method gemCfg st pages 0).1

/-- Spec wording, per page: a cached page is reused; an uncached page needing
OCR contributes its OCR text; otherwise the local conversion text. -/
def expectedPageText (fileHash : String) (method : ExtractionMethod)
    (gemCfg : Bool) (st : MetadataStore) (i : Nat) (p : PageSpec) :
    Except String String :=
  match st.get_cached_page fileHash i with
  | some c => .ok c
  | none => if useGemini method gemCfg p then p.ocrText else .ok p.localText

/-- The per-page texts in physical page-index order (a failed OCR page reads
as `""`). -/
def expectedTexts (fileHash : String) (method : ExtractionMethod)
    (gemCfg : Bool) (st : MetadataStore) (pages : List PageSpec) :
    List String :=
  pages.enum.map fun ip =>
    match expectedPageText fileHash method gemCfg st ip.1 ip.2 with
    | .ok s => s
    | .error _ => ""

/-- The 1-based page numbers of the pages whose OCR task fails: uncached
pages routed to OCR whose outcome is an error, in page order. -/
def failedPagesSpec (fileHash : String) (method : ExtractionMethod)
    (gemCfg : Bool) (st : MetadataStore) (pages : List PageSpec) : List Nat :=
  pages.enum.filterMap fun ip =>
    match st.get_cached_page fileHash ip.1 with
    | some _ => none
    | none =>
      if useGemini method gemCfg ip.2 then
        match ip.2.ocrText with
        | .ok _ => none
        | .error _ => some (ip.1 + 1)
      else none

/-! ## Incremental indexer (tools/indexing.py)

`_index_single_file`, with every external effect an explicit input: the
file-system facts (existence, resolved path, mtime, hash), the result of
`extract_document`, the chunker (`chunk_text`, an external splitter), and
whether `embed_texts` succeeds.  `make_doc_id` (a truncated SHA-256 of
`collection + NUL + path`) is an abstract deterministic function parameter.
The returned effect list records which heavyweight operations ran. -/

/-- The fields of `ExtractedDocument` the indexer consumes. -/
structure ExtractedDoc where
  file_path : String
  file_hash : String
  content : String
  file_type : String
deriving DecidableEq

structure FileIndexResult where
  file_path : String
  success : Bool
  message : Option String
deriving DecidableEq

structure IndexerState where
  meta : MetadataStore
  vec : VectorStore
deriving DecidableEq

inductive IndexerEffect where
  | extraction | chunking | embedding
deriving DecidableEq

/-- External inputs of one `_index_single_file` call. -/
structure IndexInput where
  file_path : String
  file_name : String
  suffix : String
  abs_path : String
  file_exists : Bool
  supported : Bool
  current_mtime : ℚ
  current_hash : String
  extraction : Except String ExtractedDoc
deriving DecidableEq

/-- Source: `_index_single_file`.

The try-block around chunking/embedding/storage turns any exception into a
failure result while keeping the mutations already performed.  The call
`app.metadata_store.add_document(...)` at indexing.py:146 passes
`doc_id, file_path, file_hash, file_mtime, file_type, collection,
chunk_count` but omits the required `markdown_path` parameter of
`MetadataStore.add_document` (metadata.py:163-173), so Python raises
`TypeError` at that call — before any SQL runs — and the except-block at
indexing.py:155 returns a failure result; the subsequent
`clear_page_cache` and the success return at indexing.py:163-167 are
unreachable on this path. -/
def indexSingleFile (makeDocId : String → String → String)
    (chunkFn : String → List String) (embedOk : Bool) (inp : IndexInput)
    (collection : String) (force : Bool) (st : IndexerState) :
    FileIndexResult × IndexerState × List IndexerEffect :=
  if !inp.file_exists then
    (⟨inp.file_path, false, some "File not found"⟩, st, [])
  else if !inp.supported then
    (⟨inp.file_path, false, some ("Unsupported file type: " ++ inp.suffix)⟩,
      st, [])
  else
    let doc_id := makeDocId inp.abs_path collection
    let skip : Option (FileIndexResult × IndexerState × List IndexerEffect) :=
      if force then none
      else
        match st.meta.get_document_by_path inp.abs_path collection with
        | none => none
        | some existing =>
          if existing.file_mtime = inp.current_mtime then
            some (⟨inp.file_path, true, none⟩, st, [])
          else if inp.current_hash = existing.file_hash then
            some (⟨inp.file_path, true, none⟩,
              ⟨st.meta.update_document_mtime existing.doc_id
                inp.current_mtime, st.vec⟩, [])
          else none
    match skip with
    | some out => out
    | none =>
      match inp.extraction with
      | .error e =>
        (⟨inp.file_path, false,
          some ("Extraction failed for " ++ inp.file_name ++ ": " ++ e)⟩,
          st, [.extraction])
      | .ok doc =>
        let chunks := chunkFn doc.content
        if chunks.isEmpty then
          (⟨inp.file_path, false,
            some ("No content extracted from: " ++ inp.file_name)⟩,
            st, [.extraction, .chunking])
        else
          let vec1 := (st.vec.delete_document_chunks doc_id).1
          if !embedOk then
            (⟨inp.file_path, false,
              some ("Indexing failed for " ++ inp.file_name ++
                ": embedding error")⟩,
              ⟨st.meta, vec1⟩, [.extraction, .chunking, .embedding])
          else
            let vec2 :=
              (vec1.add_chunks chunks doc_id inp.abs_path collection).1
            (⟨inp.file_path, false,
              some ("Indexing failed for " ++ inp.file_name ++
                ": TypeError: add_document missing 1 required " ++
                "positional argument: markdown_path")⟩,
              ⟨st.meta, vec2⟩, [.extraction, .chunking, .embedding])

/-- The record with its mtime zeroed, used to state that an operation
changed nothing but the mtime. -/
def eraseMtime (d : DocumentRecord) : DocumentRecord :=
  { d with file_mtime := 0 }

/-! ## Extraction-method dispatch (extract_pdf) and the indexer call site

`extract_pdf` picks one of four paths from the requested method and the
presence of the Azure client.  `_index_single_file` calls
`extract_document(file_path, metadata_store=..., gemini_client=...,
gemini_semaphore=..., force=..., extraction_method=...)`
(indexing.py:105-112) — the `azure_di_client` parameter is not passed, so
it takes its default `None` no matter what the application context holds. -/

inductive PdfExtractionPath where
  | azurePath        -- whole-document Azure DI + table reconstruction
  | azureConfigError -- RuntimeError: azure requested but not configured
  | pymupdfPath      -- whole-document local conversion
  | hybridPath       -- per-page cache / OCR / local loop
deriving DecidableEq

/-- The dispatch at the top of `extract_pdf` as a function of the requested
method and the `azure_di_client` argument it receives. -/
def extractPdfPath (method : ExtractionMethod) (azureClientPassed : Bool) :
    PdfExtractionPath :=
  if method = .azure ∨ (method = .auto ∧ azureClientPassed) then
    if azureClientPassed then .azurePath else .azureConfigError
  else if method = .pymupdf then .pymupdfPath
  else .hybridPath

/-- The application context fields relevant to extraction dispatch. -/
structure AppContext where
  azure_di_client : Bool
  gemini_client : Bool
deriving DecidableEq

/-- The extraction path taken when `_index_single_file` extracts a PDF:
`extract_document` is called without the `azure_di_client` argument
(indexing.py:105-112), so `extract_pdf` sees `azure_di_client = None`
regardless of `app.azure_di_client`. -/
def indexerExtractionPath (_app : AppContext) (method : ExtractionMethod) :
    PdfExtractionPath :=
  extractPdfPath method false

/-! ## Concrete example inputs used by counterexamples and witnesses -/

/-- A 2×2 header + body table with caption and footnote (no spanning
cell). -/
def exTablebasic : DocumentTable :=
  ⟨2, 2,
    [⟨0, 0, none, none, some "columnHeader", "H1"⟩,
     ⟨0, 1, none, none, some "columnHeader", "H2"⟩,
     ⟨1, 0, none, none, none, "a"⟩,
     ⟨1, 1, none, none, none, "b"⟩],
    some ⟨"Cap"⟩, [⟨"fn1"⟩]⟩

/-- A table whose first cell spans two columns and whose second cell is a
plain content cell sitting in the same (header) row. -/
def exTableSpan : DocumentTable :=
  ⟨1, 3,
    [⟨0, 0, none, some 2, some "columnHeader", "A"⟩,
     ⟨0, 2, none, none, none, "B"⟩],
    none, []⟩

/-- A degenerate table with zero rows (and no cells). -/
def exTableZeroRows : DocumentTable := ⟨0, 2, [], none, []⟩

/-- A table violating the grid bounds: one cell with
`row_index = 1 ≥ row_count = 1`. -/
def exTableOOB : DocumentTable := ⟨1, 1, [⟨1, 0, none, none, none, "x"⟩], none, []⟩

/-- A 429 `ClientError` with no `Retry-After` header. -/
def exNoHintErr : ClientError := ⟨429, none⟩

/-- A 429 `ClientError` whose `Retry-After` header is the digit string 7
(padded, as the source strips it). -/
def exHint7Err : ClientError := ⟨429, some " 7 "⟩

/-- Date-parse oracle that accepts nothing. -/
def pdNone : String → Option ℚ := fun _ => none

/-- Attempt outcomes: a headerless 429 first, then successes. -/
def exOutcomesNoHint : Nat → OcrOutcome :=
  fun n => if n = 0 then .clientErr exNoHintErr else .ok "recovered"

/-- Attempt outcomes: two 429s with digit hints, then success. -/
def exOutcomesDigits : Nat → OcrOutcome :=
  fun n =>
    if n = 0 then .clientErr exHint7Err
    else if n = 1 then .clientErr ⟨429, some "12"⟩
    else .ok "done"

/-- Hybrid-extraction example: four pages — page 0 pre-cached, pages 1 and
3 need OCR, page 2 converts locally; all OCR succeeds. -/
def exPagesOk : List PageSpec :=
  [⟨false, "l0", .ok "o0"⟩, ⟨true, "l1", .ok "o1"⟩,
   ⟨false, "l2", .ok "o2"⟩, ⟨true, "l3", .ok "o3"⟩]

/-- Same four pages, with the OCR of page 1 failing after retries. -/
def exPagesFail : List PageSpec :=
  [⟨false, "l0", .ok "o0"⟩, ⟨true, "l1", .error "boom"⟩,
   ⟨false, "l2", .ok "o2"⟩, ⟨true, "l3", .ok "o3"⟩]

/-- A metadata store whose page cache holds page 0 of hash `H`. -/
def exStoreH : MetadataStore := ⟨[], [(("H", 0), "c0")]⟩

/-- Indexer example input: an existing, supported plaintext file. -/
def exIndexInput : IndexInput :=
  ⟨"/docs/note.txt", "note.txt", ".txt", "/docs/note.txt", true, true, 5,
    "h1", .ok ⟨"/docs/note.txt", "h1", "hello world", "plaintext"⟩⟩

/-- Concrete stand-in for the doc-id digest in example runs. -/
def exMakeDocId : String → String → String := fun p c => c ++ ":" ++ p

/-- Concrete stand-in for the external chunker in example runs. -/
def exChunkFn : String → List String := fun s => if s = "" then [] else [s]

/-- Empty stores. -/
def exEmptyState : IndexerState := ⟨⟨[], []⟩, ⟨[]⟩⟩

/-- An application context with both the Azure and Gemini clients
configured. -/
def exAppBoth : AppContext := ⟨true, true⟩

/-- An existing document record for the indexer example file, with a stale
mtime but matching hash. -/
def exRecord : DocumentRecord :=
  ⟨"lib:/docs/note.txt", "/docs/note.txt", "h1", 3, "plaintext", "lib", 4,
    "/md/note.md", 11⟩

/-- State holding `exRecord`, one unrelated record, a cached page and one
vector chunk. -/
def exStateWithRecord : IndexerState :=
  ⟨⟨[exRecord, ⟨"other", "/o.txt", "h9", 1, "plaintext", "lib", 2, "/md/o.md", 9⟩],
      [(("h1", 0), "cached")]⟩,
    ⟨[⟨"old chunk", "lib:/docs/note.txt", "/docs/note.txt", "lib", 0⟩]⟩⟩

/-! ## Lemmas: grid construction (markdown table path) -/

theorem listSet_spec (v : String) :
    ∀ (xs : List String) (i : Nat), i < xs.length →
    ∃ ys, listSet xs i v = some ys ∧ ys.length = xs.length ∧
      ∀ j, ys[j]? = if j = i then some v else xs[j]? := by
  intro xs
  induction xs with
  | nil => intro i h; simp at h
  | cons x tl ih =>
    intro i h
    cases i with
    | zero =>
      refine ⟨v :: tl, rfl, by simp, ?_⟩
      intro j
      cases j <;> simp
    | succ i =>
      obtain ⟨ys, hset, hlen, hget⟩ := ih i (by simpa using h)
      refine ⟨x :: ys, ?_, by simp [hlen], ?_⟩
      · simp [listSet, hset]
      · intro j
        cases j with
        | zero => simp
        | succ j => simpa using hget j

theorem gridSet_spec (v : String) (W : Nat) :
    ∀ (g : List (List String)) (r c : Nat), r < g.length → c < W →
    (∀ row ∈ g, row.length = W) →
    ∃ g2, gridSet g r c v = some g2 ∧ g2.length = g.length ∧
      (∀ row ∈ g2, row.length = W) ∧
      ∀ r' c', gridGet g2 r' c' =
        if r' = r ∧ c' = c then some v else gridGet g r' c' := by
  intro g
  induction g with
  | nil => intro r c h; simp at h
  | cons row rest ih =>
    intro r c hr hc hrect
    cases r with
    | zero =>
      have hcrow : c < row.length := by
        rw [hrect row (by simp)]; exact hc
      obtain ⟨ys, hset, hlen, hget⟩ := listSet_spec v row c hcrow
      refine ⟨ys :: rest, ?_, by simp, ?_, ?_⟩
      · simp [gridSet, hset]
      · intro row2 hrow2
        rcases List.mem_cons.1 hrow2 with h | h
        · rw [h, hlen]; exact hrect row (by simp)
        · exact hrect row2 (List.mem_cons_of_mem _ h)
      · intro r' c'
        cases r' with
        | zero => simp [gridGet, hget c']
        | succ r' => simp [gridGet]
    | succ r =>
      obtain ⟨g2, hset, hlen, hrect2, hget⟩ :=
        ih r c (by simpa using hr) hc
          (fun row2 h => hrect row2 (List.mem_cons_of_mem _ h))
      refine ⟨row :: g2, ?_, by simp [hlen], ?_, ?_⟩
      · simp [gridSet, hset]
      · intro row2 hrow2
        rcases List.mem_cons.1 hrow2 with h | h
        · rw [h]; exact hrect row (by simp)
        · exact hrect2 row2 h
      · intro r' c'
        cases r' with
        | zero => simp [gridGet]
        | succ r' =>
          have := hget r' c'
          simp only [gridGet] at this ⊢
          simpa [Nat.succ_inj] using this

theorem fillGrid_some (W : Nat) :
    ∀ (cells : List DocumentTableCell) (g : List (List String)) (hr : List Nat),
    (∀ cell ∈ cells, cell.row_index < g.length ∧ cell.column_index < W) →
    (∀ row ∈ g, row.length = W) →
    ∃ g2 hr2, fillGrid cells g hr = some (g2, hr2) ∧
      g2.length = g.length ∧ (∀ row ∈ g2, row.length = W) ∧
      hr2 = hr ++
        ((cells.filter fun c => isHeaderKind (kindOrContent c.kind)).map
          (·.row_index)) := by
  intro cells
  induction cells with
  | nil => intro g hr _ hrect; exact ⟨g, hr, rfl, rfl, hrect, by simp⟩
  | cons cell rest ih =>
    intro g hr hb hrect
    obtain ⟨g1, hset, hlen1, hrect1, _⟩ :=
      gridSet_spec (cleanCellContent cell.content) W g cell.row_index
        cell.column_index (hb cell (by simp)).1 (hb cell (by simp)).2 hrect
    obtain ⟨g2, hr2, hfill, hlen2, hrect2, hhr⟩ :=
      ih g1
        (if isHeaderKind (kindOrContent cell.kind) then hr ++ [cell.row_index]
         else hr)
        (fun c hc => by rw [hlen1]; exact hb c (List.mem_cons_of_mem _ hc))
        hrect1
    refine ⟨g2, hr2, ?_, by rw [hlen2, hlen1], hrect2, ?_⟩
    · simp only [fillGrid, hset, hfill]
    · rw [hhr, List.filter_cons]
      by_cases hk : isHeaderKind (kindOrContent cell.kind) <;>
        simp [hk, List.append_assoc]

theorem fillGrid_content (W : Nat) :
    ∀ (cells : List DocumentTableCell) (g : List (List String)) (hr : List Nat)
    (g2 : List (List String)) (hr2 : List Nat),
    (∀ cell ∈ cells, cell.row_index < g.length ∧ cell.column_index < W) →
    (∀ row ∈ g, row.length = W) →
    cells.Pairwise
      (fun a b => (a.row_index, a.column_index) ≠ (b.row_index, b.column_index)) →
    fillGrid cells g hr = some (g2, hr2) →
    ∀ r c, gridGet g2 r c =
      (match cells.find? fun cell =>
          cell.row_index = r && cell.column_index = c with
       | some cell => some (cleanCellContent cell.content)
       | none => gridGet g r c) := by
  intro cells
  induction cells with
  | nil =>
    intro g hr g2 hr2 _ _ _ hfill r c
    simp only [fillGrid] at hfill
    cases hfill
    simp
  | cons cell rest ih =>
    intro g hr g2 hr2 hb hrect hpw hfill r c
    obtain ⟨g1, hset, hlen1, hrect1, hget1⟩ :=
      gridSet_spec (cleanCellContent cell.content) W g cell.row_index
        cell.column_index (hb cell (by simp)).1 (hb cell (by simp)).2 hrect
    simp only [fillGrid, hset] at hfill
    have hrest := ih g1 _ g2 hr2
      (fun c hc => by rw [hlen1]; exact hb c (List.mem_cons_of_mem _ hc))
      hrect1 (List.pairwise_cons.1 hpw).2 hfill r c
    by_cases hpos : cell.row_index = r ∧ cell.column_index = c
    · have hfind :
          (cell :: rest).find?
            (fun cl => cl.row_index = r && cl.column_index = c) = some cell := by
        rw [List.find?_cons_of_pos]
        simp [hpos.1, hpos.2]
      rw [hfind]
      have hnone :
          rest.find? (fun cl => cl.row_index = r && cl.column_index = c) =
            none := by
        rw [List.find?_eq_none]
        intro b hbmem
        have hne := (List.pairwise_cons.1 hpw).1 b hbmem
        simp only [Bool.and_eq_true, decide_eq_true_eq]
        intro hcontra
        apply hne
        rw [hpos.1, hpos.2, hcontra.1, hcontra.2]
      rw [hnone] at hrest
      simp only at hrest
      rw [hrest, hget1 r c, if_pos ⟨hpos.1.symm, hpos.2.symm⟩]
    · have hfind :
          (cell :: rest).find?
            (fun cl => cl.row_index = r && cl.column_index = c) =
          rest.find? (fun cl => cl.row_index = r && cl.column_index = c) := by
        rw [List.find?_cons_of_neg]
        simp only [Bool.and_eq_true, decide_eq_true_eq]
        exact fun h => hpos h
      rw [hfind]
      cases hfind2 :
          rest.find? (fun cl => cl.row_index = r && cl.column_index = c) with
      | some cl => rw [hfind2] at hrest; simpa using hrest
      | none =>
        rw [hfind2] at hrest
        simp only at hrest
        rw [hrest, hget1 r c, if_neg]
        intro hcontra
        exact hpos ⟨hcontra.1.symm, hcontra.2.symm⟩

/-! ## Lemmas: maxima, ranges and flat maps -/

theorem le_foldlMax : ∀ (l : List Nat) (b : Nat), b ≤ l.foldl natMax b := by
  intro l
  induction l with
  | nil => intro b; simp
  | cons x tl ih =>
    intro b
    calc b ≤ natMax b x := by unfold natMax; split <;> omega
    _ ≤ tl.foldl natMax (natMax b x) := ih _

theorem mem_le_foldlMax :
    ∀ (l : List Nat) (b a : Nat), a ∈ l → a ≤ l.foldl natMax b := by
  intro l
  induction l with
  | nil => intro b a h; simp at h
  | cons x tl ih =>
    intro b a h
    rcases List.mem_cons.1 h with h | h
    · subst h
      calc a ≤ natMax b a := by unfold natMax; split <;> omega
      _ ≤ tl.foldl natMax (natMax b a) := le_foldlMax _ _
    · exact ih _ a h

theorem foldlMax_cases :
    ∀ (l : List Nat) (b : Nat), l.foldl natMax b = b ∨ l.foldl natMax b ∈ l := by
  intro l
  induction l with
  | nil => intro b; left; rfl
  | cons x tl ih =>
    intro b
    rcases ih (natMax b x) with h | h
    · rw [List.foldl_cons, h]
      unfold natMax
      split
      · right; simp
      · left; rfl
    · right
      rw [List.foldl_cons]
      exact List.mem_cons_of_mem _ h

theorem sorted_le_getLastD :
    ∀ (l : List Nat), l.Pairwise (· < ·) → ∀ a ∈ l, a ≤ l.getLast?.getD 0 := by
  intro l
  induction l with
  | nil => intro _ a h; simp at h
  | cons x tl ih =>
    intro hpw a h
    cases tl with
    | nil =>
      rcases List.mem_cons.1 h with h | h
      · subst h; simp
      · simp at h
    | cons y ys =>
      have hlast : (x :: y :: ys).getLast? = (y :: ys).getLast? := by
        simp [List.getLast?_cons_cons]
      rw [hlast]
      rcases List.mem_cons.1 h with h | h
      · subst h
        have hay : a < y := (List.pairwise_cons.1 hpw).1 y (by simp)
        calc a ≤ y := Nat.le_of_lt hay
        _ ≤ (y :: ys).getLast?.getD 0 :=
          ih (List.pairwise_cons.1 hpw).2 y (by simp)
      · exact ih (List.pairwise_cons.1 hpw).2 a h

theorem zip_self : ∀ (l : List α), l.zip l = l.map fun a => (a, a) := by
  intro l
  induction l with
  | nil => rfl
  | cons x tl ih => simp [List.zip_cons_cons, ih]

theorem flatMap_no_match {α : Type} (f : Nat → α) (s : α) (j : Nat) :
    ∀ (l : List Nat), (∀ r ∈ l, r ≠ j) →
    (l.flatMap fun r => if r = j then [f r, s] else [f r]) = l.map f := by
  intro l
  induction l with
  | nil => intro _; rfl
  | cons x tl ih =>
    intro h
    rw [List.flatMap_cons, if_neg (h x (by simp)), ih (fun r hr => h r (by simp [hr]))]
    rfl

theorem range_flatMap_insert {α : Type} (f : Nat → α) (s : α) :
    ∀ (R j : Nat), j < R →
    ((List.range R).flatMap fun r => if r = j then [f r, s] else [f r]) =
      ((List.range R).map f).take (j + 1) ++
        s :: ((List.range R).map f).drop (j + 1) := by
  intro R
  induction R with
  | zero => intro j h; simp at h
  | succ R ih =>
    intro j hj
    rw [List.range_succ, List.flatMap_append, List.map_append]
    rcases Nat.lt_or_ge j R with hjR | hjR
    · have hlen : j + 1 ≤ ((List.range R).map f).length := by
        simpa using hjR
      rw [ih j hjR, List.take_append_of_le_length hlen,
        List.drop_append_of_le_length hlen, List.flatMap_cons,
        if_neg (Nat.ne_of_gt hjR)]
      simp
    · have hjR2 : j = R := Nat.le_antisymm (Nat.lt_succ_iff.1 hj) hjR
      subst hjR2
      rw [flatMap_no_match f s j (List.range j)
        (fun r hr => Nat.ne_of_lt (List.mem_range.1 hr))]
      have hlen : (((List.range j).map f) ++ [f j]).length = j + 1 := by simp
      simp only [List.map_cons, List.map_nil]
      rw [List.flatMap_cons, if_pos rfl, List.flatMap_nil,
        ← hlen, List.take_length, List.drop_length]
      simp

end McpLocalRag

namespace McpLocalRag

theorem find?_self_of_pairwise (cell : DocumentTableCell) :
    ∀ (cells : List DocumentTableCell), cell ∈ cells →
    cells.Pairwise
      (fun a b => (a.row_index, a.column_index) ≠ (b.row_index, b.column_index)) →
    cells.find?
      (fun cl => cl.row_index = cell.row_index &&
        cl.column_index = cell.column_index) = some cell := by
  intro cells
  induction cells with
  | nil => intro h; simp at h
  | cons hd rest ih =>
    intro hmem hpw
    rcases List.mem_cons.1 hmem with h | h
    · subst h
      rw [List.find?_cons_of_pos]
      simp
    · rw [List.find?_cons_of_neg, ih h (List.pairwise_cons.1 hpw).2]
      have hne := (List.pairwise_cons.1 hpw).1 cell h
      simp only [Bool.and_eq_true, decide_eq_true_eq]
      intro hcontra
      exact hne (by rw [hcontra.1, hcontra.2])

theorem sepAfterSpec_lt (t : DocumentTable) (hR : 1 ≤ t.row_count) :
    sepAfterSpec t < t.row_count := by
  unfold sepAfterSpec
  cases hfl : (List.range t.row_count).filter (isHeaderRowSpec t.cells) with
  | nil => simpa using hR
  | cons x xs =>
    have hne : (x :: xs : List Nat) ≠ [] := by simp
    have hmem : (x :: xs).getLast hne ∈ x :: xs := List.getLast_mem hne
    rw [List.getLast?_eq_getLast _ hne]
    simp only [Option.getD_some]
    have : (x :: xs).getLast hne ∈
        (List.range t.row_count).filter (isHeaderRowSpec t.cells) := by
      rw [hfl]; exact hmem
    exact List.mem_range.1 (List.mem_of_mem_filter this)

theorem sepAfter_eq (t : DocumentTable)
    (hb : ∀ cell ∈ t.cells, cell.row_index < t.row_count) :
    ((t.cells.filter fun c => isHeaderKind (kindOrContent c.kind)).map
      (·.row_index)).foldl natMax 0 = sepAfterSpec t := by
  set M1 := ((t.cells.filter fun c => isHeaderKind (kindOrContent c.kind)).map
    (·.row_index)).foldl natMax 0 with hM1
  set L := (List.range t.row_count).filter (isHeaderRowSpec t.cells) with hL
  have hsortedL : L.Pairwise (· < ·) := by
    rw [hL]
    exact (List.sorted_lt_range t.row_count).filter _
  apply Nat.le_antisymm
  · rcases foldlMax_cases
        ((t.cells.filter fun c => isHeaderKind (kindOrContent c.kind)).map
          (·.row_index)) 0 with h | h
    · rw [← hM1] at h
      rw [h]
      exact Nat.zero_le _
    · rw [← hM1] at h
      obtain ⟨cell, hcellmem, hcellrow⟩ := List.mem_map.1 h
      have hcellc := List.mem_filter.1 hcellmem
      have hmemL : M1 ∈ L := by
        rw [hL]
        apply List.mem_filter.2
        refine ⟨List.mem_range.2 ?_, ?_⟩
        · rw [← hcellrow]; exact hb cell hcellc.1
        · unfold isHeaderRowSpec
          apply List.any_eq_true.2
          exact ⟨cell, hcellc.1, by simp [hcellrow, hcellc.2]⟩
      exact sorted_le_getLastD L hsortedL M1 hmemL
  · unfold sepAfterSpec
    rw [← hL]
    cases hLc : L with
    | nil => simp
    | cons x xs =>
      have hne : (x :: xs : List Nat) ≠ [] := by simp
      rw [List.getLast?_eq_getLast _ hne]
      simp only [Option.getD_some]
      have hmemL : (x :: xs).getLast hne ∈ L := by
        rw [hLc]; exact List.getLast_mem hne
      have hhdr : isHeaderRowSpec t.cells ((x :: xs).getLast hne) = true := by
        have := List.mem_filter.1 (by rw [hL] at hmemL; exact hmemL)
        exact this.2
      obtain ⟨cell, hcmem, hcrow⟩ := List.any_eq_true.1 hhdr
      simp only [Bool.and_eq_true, decide_eq_true_eq] at hcrow
      have h1 : cell.row_index = (x :: xs).getLast hne := hcrow.1
      have h2 : isHeaderKind (kindOrContent cell.kind) = true := hcrow.2
      apply mem_le_foldlMax
      rw [← h1]
      exact List.mem_map.2 ⟨cell, List.mem_filter.2 ⟨hcmem, h2⟩, rfl⟩

end McpLocalRag
namespace McpLocalRag

theorem buildMarkdown_grid (t : DocumentTable)
    (hb : ∀ cell ∈ t.cells,
      cell.row_index < t.row_count ∧ cell.column_index < t.column_count)
    (hpw : t.cells.Pairwise
      (fun a b => (a.row_index, a.column_index) ≠ (b.row_index, b.column_index))) :
    fillGrid t.cells
      (List.replicate t.row_count (List.replicate t.column_count "")) [] =
    some ((List.range t.row_count).map (dataRowSpec t),
      (t.cells.filter fun c => isHeaderKind (kindOrContent c.kind)).map
        (·.row_index)) := by
  set g0 := List.replicate t.row_count (List.replicate t.column_count "")
    with hg0
  have hg0len : g0.length = t.row_count := by simp [hg0]
  have hg0rect : ∀ row ∈ g0, row.length = t.column_count := by
    intro row hrow
    rw [List.eq_of_mem_replicate hrow]
    simp
  have hb0 : ∀ cell ∈ t.cells,
      cell.row_index < g0.length ∧ cell.column_index < t.column_count := by
    intro cell hc
    rw [hg0len]
    exact hb cell hc
  obtain ⟨g2, hr2, hfill, hlen2, hrect2, hhr⟩ :=
    fillGrid_some t.column_count t.cells g0 [] hb0 hg0rect
  have hg2 : g2 = (List.range t.row_count).map (dataRowSpec t) := by
    have hcontent := fillGrid_content t.column_count t.cells g0 [] g2 hr2
      hb0 hg0rect hpw hfill
    apply List.ext_getElem?
    intro i
    rcases Nat.lt_or_ge i t.row_count with hi | hi
    · have hig2 : i < g2.length := by rw [hlen2, hg0len]; exact hi
      rw [List.getElem?_eq_getElem hig2, List.getElem?_map,
        List.getElem?_range hi]
      simp only [Option.map_some']
      congr 1
      apply List.ext_getElem?
      intro j
      rcases Nat.lt_or_ge j t.column_count with hj | hj
      · have hrowlen : g2[i].length = t.column_count :=
          hrect2 g2[i] (g2.getElem_mem hig2)
        have hjrow : j < g2[i].length := by rw [hrowlen]; exact hj
        have hgg : gridGet g2 i j = g2[i][j]? := by
          unfold gridGet
          rw [List.getElem?_eq_getElem hig2]
          rfl
        have hg0get : gridGet g0 i j = some "" := by
          unfold gridGet
          rw [hg0]
          rw [List.getElem?_replicate_of_lt hi, Option.some_bind]
          exact List.getElem?_replicate_of_lt hj
        rw [← hgg, hcontent i j]
        unfold dataRowSpec
        rw [List.getElem?_map, List.getElem?_range hj]
        simp only [Option.map_some']
        unfold gridAt
        cases hfind : t.cells.find?
            (fun cell => cell.row_index = i && cell.column_index = j) with
        | some cl => rfl
        | none => rw [hg0get]
      · have hrowlen : g2[i].length = t.column_count :=
          hrect2 g2[i] (g2.getElem_mem hig2)
        rw [List.getElem?_eq_none (by rw [hrowlen]; exact hj),
          List.getElem?_eq_none (by simp [dataRowSpec]; exact hj)]
    · rw [List.getElem?_eq_none (by rw [hlen2, hg0len]; exact hi),
        List.getElem?_eq_none (by simp; exact hi)]
  rw [hfill, hg2]
  rw [hhr]
  simp

end McpLocalRag
namespace McpLocalRag

theorem mdGridLines_map_range (f : Nat → List String) (R sep W : Nat) :
    mdGridLines ((List.range R).map f) sep W =
      (List.range R).flatMap fun r =>
        if r = sep then [mdRow (f r), mdSeparatorRow W] else [mdRow (f r)] := by
  unfold mdGridLines
  rw [List.enum_map, List.enum_eq_zip_range, List.length_range, zip_self,
    List.map_map, List.map_map, ← List.flatMap_def]
  rfl

/-- Claim C6 (amended): for every table with no spanning cell, at least one
row, all cells within the `row_count × col_count` bounds and at
pairwise-distinct positions, `_build_markdown_table` produces exactly the
pipe table described by the spec: the caption lines, `row_count` data rows
each rendered from exactly `col_count` cells with each cell's text at its
`(row_index, column_index)` position, exactly one header/body separator row
immediately after the last header row (row 0 if none), and the footnote
lines. -/
theorem C6_markdown_table_amended (t : DocumentTable)
    (hspan : needsHtmlTable t = false)
    (hb : ∀ cell ∈ t.cells,
      cell.row_index < t.row_count ∧ cell.column_index < t.column_count)
    (hpw : t.cells.Pairwise
      (fun a b => (a.row_index, a.column_index) ≠ (b.row_index, b.column_index)))
    (hR : 1 ≤ t.row_count) :
    buildMarkdownTable t = .ok (specMarkdownTable t) ∧
    bodyLinesSpec t =
      (((List.range t.row_count).map fun r => mdRow (dataRowSpec t r)).take
          (sepAfterSpec t + 1)) ++
        mdSeparatorRow t.column_count ::
        (((List.range t.row_count).map fun r => mdRow (dataRowSpec t r)).drop
          (sepAfterSpec t + 1)) ∧
    (∀ r, (dataRowSpec t r).length = t.column_count) ∧
    (∀ cell ∈ t.cells,
      (dataRowSpec t cell.row_index)[cell.column_index]? =
        some (cleanCellContent cell.content)) := by
  refine ⟨?_, ?_, ?_, ?_⟩
  · unfold buildMarkdownTable
    rw [hspan]
    simp only [Bool.false_eq_true, if_false]
    rw [buildMarkdown_grid t hb hpw]
    simp only
    rw [sepAfter_eq t (fun cell hc => (hb cell hc).1)]
    unfold specMarkdownTable
    rw [mdGridLines_map_range]
    rfl
  · unfold bodyLinesSpec
    exact range_flatMap_insert _ _ t.row_count (sepAfterSpec t)
      (sepAfterSpec_lt t hR)
  · intro r
    unfold dataRowSpec
    simp
  · intro cell hc
    unfold dataRowSpec
    rw [List.getElem?_map, List.getElem?_range (hb cell hc).2,
      Option.map_some']
    unfold gridAt
    rw [find?_self_of_pairwise cell t.cells hc hpw]

end McpLocalRag
namespace McpLocalRag

theorem foldl_insert_mem (x : Nat × Nat) :
    ∀ (ps : List (Nat × Nat)) (s : Finset (Nat × Nat)),
    (x ∈ ps.foldl (fun s p => insert p s) s ↔ x ∈ s ∨ x ∈ ps) := by
  intro ps
  induction ps with
  | nil => intro s; simp
  | cons p rest ih =>
    intro s
    rw [List.foldl_cons, ih (insert p s)]
    simp [Finset.mem_insert]
    tauto

theorem rowHasHeaderCell_iff (cells : List DocumentTableCell) (r : Nat) :
    rowHasHeaderCell cells r = true ↔ r ∈ htmlHeaderRows cells := by
  unfold rowHasHeaderCell htmlHeaderRows
  rw [List.any_eq_true]
  constructor
  · rintro ⟨cell, hc, hp⟩
    simp only [Bool.and_eq_true, decide_eq_true_eq] at hp
    exact List.mem_map.2 ⟨cell, List.mem_filter.2 ⟨hc, hp.2⟩, hp.1⟩
  · intro h
    obtain ⟨cell, hc, hr⟩ := List.mem_map.1 h
    have hf := List.mem_filter.1 hc
    exact ⟨cell, hf.1, by simp [hr, hf.2]⟩

theorem htmlRowCells_eq_spec (headerRows : List Nat) (rIdx : Nat)
    (tagOf : DocumentTableCell → String)
    (htag : tagOf = fun _ => if rIdx ∈ headerRows then "th" else "td") :
    ∀ (cells : List DocumentTableCell) (occL : List (Nat × Nat))
      (occF : Finset (Nat × Nat)),
    (∀ x, x ∈ occL ↔ x ∈ occF) →
    (htmlRowCells headerRows rIdx cells occL).1 =
      (specHtmlRowCells tagOf cells occF).1 ∧
    (∀ x, x ∈ (htmlRowCells headerRows rIdx cells occL).2 ↔
      x ∈ (specHtmlRowCells tagOf cells occF).2) := by
  intro cells
  induction cells with
  | nil => intro occL occF hmem; exact ⟨rfl, hmem⟩
  | cons cell rest ih =>
    intro occL occF hmem
    by_cases hocc : (cell.row_index, cell.column_index) ∈ occL
    · have hoccF : (cell.row_index, cell.column_index) ∈ occF :=
        (hmem _).1 hocc
      unfold htmlRowCells specHtmlRowCells
      rw [if_pos hocc, if_pos hoccF]
      exact ih occL occF hmem
    · have hoccF : (cell.row_index, cell.column_index) ∉ occF :=
        fun h => hocc ((hmem _).2 h)
      unfold htmlRowCells specHtmlRowCells
      rw [if_neg hocc, if_neg hoccF]
      simp only
      have hmem2 : ∀ x, x ∈ occL ++ spannedPositions cell ↔
          x ∈ (spannedPositions cell).foldl (fun s p => insert p s) occF := by
        intro x
        rw [List.mem_append, foldl_insert_mem x (spannedPositions cell) occF,
          hmem x]
      obtain ⟨h1, h2⟩ := ih (occL ++ spannedPositions cell)
        ((spannedPositions cell).foldl (fun s p => insert p s) occF) hmem2
      refine ⟨?_, h2⟩
      rw [h1, htag]

theorem htmlRowsLoop_eq_spec (cells : List DocumentTableCell)
    (tagOf : Nat → DocumentTableCell → String)
    (htag : ∀ rIdx, tagOf rIdx =
      fun _ => if rIdx ∈ htmlHeaderRows cells then "th" else "td") :
    ∀ (rows : List Nat) (occL : List (Nat × Nat)) (occF : Finset (Nat × Nat)),
    (∀ x, x ∈ occL ↔ x ∈ occF) →
    htmlRowsLoop cells (htmlHeaderRows cells) rows occL =
      specHtmlRowsLoop cells tagOf rows occF := by
  intro rows
  induction rows with
  | nil => intro occL occF _; rfl
  | cons rIdx rest ih =>
    intro occL occF hmem
    unfold htmlRowsLoop specHtmlRowsLoop
    obtain ⟨h1, h2⟩ := htmlRowCells_eq_spec (htmlHeaderRows cells) rIdx
      (tagOf rIdx) (htag rIdx) (sortByColumn (byRow cells rIdx)) occL occF hmem
    show ("  <tr>" ++ String.join
        (htmlRowCells (htmlHeaderRows cells) rIdx
          (sortByColumn (byRow cells rIdx)) occL).1 ++ "</tr>") ::
        htmlRowsLoop cells (htmlHeaderRows cells) rest
          (htmlRowCells (htmlHeaderRows cells) rIdx
            (sortByColumn (byRow cells rIdx)) occL).2 =
      ("  <tr>" ++ String.join
        (specHtmlRowCells (tagOf rIdx)
          (sortByColumn (byRow cells rIdx)) occF).1 ++ "</tr>") ::
        specHtmlRowsLoop cells tagOf rest
          (specHtmlRowCells (tagOf rIdx)
            (sortByColumn (byRow cells rIdx)) occF).2
    rw [h1, ih _ _ h2]

/-- Claim C7 (amended): for every table, `_build_html_table` produces the
HTML table built by iterating cells in row-major order, skipping every cell
whose top-left position is already occupied by a prior spanning cell,
emitting one `<tr>` per grid row with `rowspan`/`colspan` attributes exactly
when the span exceeds 1 — with a cell rendered as `<th>` iff its *row*
contains some header-kind cell (not iff the cell itself is header-kind). -/
theorem C7_html_table_amended (t : DocumentTable) :
    buildHtmlTable t = specHtmlTableAmended t := by
  unfold buildHtmlTable specHtmlTableAmended
  rw [htmlRowsLoop_eq_spec t.cells _ ?_ (List.range t.row_count) [] ∅
    (by simp)]
  intro rIdx
  funext cell
  by_cases h : rIdx ∈ htmlHeaderRows t.cells
  · rw [if_pos h, if_pos ((rowHasHeaderCell_iff t.cells rIdx).2 h)]
  · rw [if_neg h, if_neg (fun hc => h ((rowHasHeaderCell_iff t.cells rIdx).1 hc))]

end McpLocalRag
namespace McpLocalRag

theorem getRetryAfter_ok (pd : String → Option ℚ) (now : ℚ) (ce : ClientError)
    (h : usableHint pd ce = true) :
    getRetryAfterSeconds pd now ce = .ok (hintDelay pd now ce) := by
  unfold getRetryAfterSeconds hintDelay
  unfold usableHint at h
  cases hh : ce.retryAfterHeader with
  | none => rw [hh] at h; simp at h
  | some raw =>
    rw [hh] at h
    simp only
    by_cases hd : pyIsDigit (pyStrip raw) = true
    · rw [if_pos hd, if_pos hd]
    · rw [if_neg hd, if_neg hd]
      simp only [hd, Bool.false_or] at h
      obtain ⟨tm, htm⟩ := Option.isSome_iff_exists.1 h
      rw [htm]

theorem getRetryAfter_error (pd : String → Option ℚ) (now : ℚ)
    (ce : ClientError) (h : usableHint pd ce = false) :
    ∃ err, getRetryAfterSeconds pd now ce = .error err := by
  unfold getRetryAfterSeconds
  unfold usableHint at h
  cases hh : ce.retryAfterHeader with
  | none => exact ⟨.client ce, rfl⟩
  | some raw =>
    rw [hh] at h
    simp only [Bool.or_eq_false_iff] at h
    cases hpd : pd (pyStrip raw) with
    | none => exact ⟨.valueError (pyStrip raw), by simp [h.1, hpd]⟩
    | some tm => rw [hpd] at h; simp at h

theorem retryGo_count (outcomes : Nat → OcrOutcome) (pd : String → Option ℚ)
    (now : ℚ) (m : Nat) :
    ∀ (f a : Nat), a + f = m + 1 → 1 ≤ f →
    (retryGo outcomes pd now m a f).calls =
      (retryGo outcomes pd now m a f).sleeps.length + 1 ∧
    (retryGo outcomes pd now m a f).calls ≤ f := by
  intro f
  induction f with
  | zero => intro a _ h; omega
  | succ f ih =>
    intro a hinv _
    unfold retryGo
    cases houtcome : outcomes a with
    | ok s => simp
    | otherErr e => simp
    | clientErr ce =>
      simp only
      by_cases hcond : ce.code = 429 ∧ a < m
      · rw [if_pos hcond]
        cases hretry : getRetryAfterSeconds pd now ce with
        | error err => simp
        | ok d =>
          simp only
          have hf : 1 ≤ f := by omega
          have hih := ih (a + 1) (by omega) hf
          refine ⟨by simp [hih.1], by simp; omega⟩
      · rw [if_neg hcond]; simp

theorem retryGo_skip (outcomes : Nat → OcrOutcome) (pd : String → Option ℚ)
    (now : ℚ) (m : Nat) :
    ∀ (k f a : Nat), k ≤ f → a + k ≤ m →
    (∀ i, i < k → usable429 pd (outcomes (a + i)) = true) →
    retryGo outcomes pd now m a f =
      ⟨(retryGo outcomes pd now m (a + k) (f - k)).result,
        (retryGo outcomes pd now m (a + k) (f - k)).calls + k,
        ((List.range k).map fun i => outcomeDelay pd now (outcomes (a + i))) ++
          (retryGo outcomes pd now m (a + k) (f - k)).sleeps⟩ := by
  intro k
  induction k with
  | zero => intro f a _ _ _; simp
  | succ k ih =>
    intro f a hkf hkm husable
    have h0 : usable429 pd (outcomes a) = true := by
      simpa using husable 0 (by omega)
    cases houtcome : outcomes a with
    | ok s => rw [houtcome] at h0; simp [usable429] at h0
    | otherErr e => rw [houtcome] at h0; simp [usable429] at h0
    | clientErr ce =>
      rw [houtcome] at h0
      unfold usable429 at h0
      simp only [Bool.and_eq_true, decide_eq_true_eq] at h0
      cases f with
      | zero => omega
      | succ f =>
        conv_lhs => unfold retryGo
        rw [houtcome]
        simp only
        rw [if_pos ⟨h0.1, by omega⟩, getRetryAfter_ok pd now ce h0.2]
        simp only
        rw [ih f (a + 1) (by omega) (by omega)
          (fun i hi => by
            have := husable (i + 1) (by omega)
            rwa [Nat.add_succ, ← Nat.succ_add] at this)]
        have hrange : ((List.range (k + 1)).map fun i =>
            outcomeDelay pd now (outcomes (a + i))) =
            outcomeDelay pd now (outcomes a) ::
              ((List.range k).map fun i =>
                outcomeDelay pd now (outcomes (a + 1 + i))) := by
          rw [List.range_succ_eq_map, List.map_cons, List.map_map]
          refine congrArg₂ List.cons (by rw [Nat.add_zero]) ?_
          apply List.map_congr_left
          intro i _
          simp only [Function.comp]
          have harith : a + Nat.succ i = a + 1 + i := by omega
          rw [harith]
        rw [hrange]
        have hdelay : outcomeDelay pd now (outcomes a) =
            hintDelay pd now ce := by rw [houtcome]; rfl
        rw [hdelay]
        have hidx : a + 1 + k = a + (k + 1) := by omega
        have hsub : f + 1 - (k + 1) = f - k := by omega
        rw [hidx, hsub]
        simp [Nat.add_assoc]

end McpLocalRag
namespace McpLocalRag

theorem getRetryAfter_client_error (pd : String → Option ℚ) (now : ℚ)
    (ce x : ClientError)
    (h : getRetryAfterSeconds pd now ce = .error (.client x)) :
    x = ce ∧ ce.retryAfterHeader = none := by
  unfold getRetryAfterSeconds at h
  cases hh : ce.retryAfterHeader with
  | none =>
    rw [hh] at h
    simp only [Except.error.injEq, OcrError.client.injEq] at h
    exact ⟨h.symm, rfl⟩
  | some raw =>
    rw [hh] at h
    simp only at h
    by_cases hd : pyIsDigit (pyStrip raw) = true
    · rw [if_pos hd] at h; cases h
    · rw [if_neg hd] at h
      cases hpd : pd (pyStrip raw) with
      | none => rw [hpd] at h; simp at h
      | some tm => rw [hpd] at h; cases h

theorem retryGo_429_usable_exhausts (outcomes : Nat → OcrOutcome)
    (pd : String → Option ℚ) (now : ℚ) (m : Nat) :
    ∀ (f a : Nat), a + f = m + 1 → ∀ ce,
    (retryGo outcomes pd now m a f).result = .error (.client ce) →
    ce.code = 429 → usableHint pd ce = true →
    (retryGo outcomes pd now m a f).calls = f := by
  intro f
  induction f with
  | zero =>
    intro a _ ce hres
    unfold retryGo at hres
    simp at hres
  | succ f ih =>
    intro a hinv ce hres hcode hhint
    unfold retryGo at hres ⊢
    cases houtcome : outcomes a with
    | ok s => rw [houtcome] at hres; simp at hres
    | otherErr e => rw [houtcome] at hres; simp at hres
    | clientErr ce' =>
      rw [houtcome] at hres
      simp only at hres ⊢
      by_cases hcond : ce'.code = 429 ∧ a < m
      · rw [if_pos hcond] at hres ⊢
        cases hretry : getRetryAfterSeconds pd now ce' with
        | error err =>
          rw [hretry] at hres
          simp only at hres
          cases err with
          | client x =>
            simp only [Except.error.injEq, OcrError.client.injEq] at hres
            obtain ⟨hx, hnone⟩ :=
              getRetryAfter_client_error pd now ce' x hretry
            rw [← hres, hx] at hhint
            unfold usableHint at hhint
            rw [hnone] at hhint
            cases hhint
          | valueError s => simp at hres
          | runtime s => simp at hres
          | other s => simp at hres
        | ok d =>
          rw [hretry] at hres
          simp only at hres
          simp only [hretry]
          have := ih (a + 1) (by omega) ce hres hcode hhint
          simp [this]
      · rw [if_neg hcond] at hres ⊢
        simp only [Except.error.injEq, OcrError.client.injEq] at hres
        have haf : a = m := by
          rcases Decidable.not_and_iff_or_not.1 hcond with h | h
          · exact absurd (by rw [hres]; exact hcode) h
          · omega
        simp only
        omega

end McpLocalRag
namespace McpLocalRag

theorem retryGo_step_ok (outcomes : Nat → OcrOutcome) (pd : String → Option ℚ)
    (now : ℚ) (m a f : Nat) (s : String) (h : outcomes a = .ok s) :
    retryGo outcomes pd now m a (f + 1) = ⟨.ok s, 1, []⟩ := by
  unfold retryGo
  rw [h]

theorem retryGo_step_other (outcomes : Nat → OcrOutcome)
    (pd : String → Option ℚ) (now : ℚ) (m a f : Nat) (e : String)
    (h : outcomes a = .otherErr e) :
    retryGo outcomes pd now m a (f + 1) = ⟨.error (.other e), 1, []⟩ := by
  unfold retryGo
  rw [h]

theorem retryGo_step_client_stop (outcomes : Nat → OcrOutcome)
    (pd : String → Option ℚ) (now : ℚ) (m a f : Nat) (ce : ClientError)
    (h : outcomes a = .clientErr ce) (hcond : ¬(ce.code = 429 ∧ a < m)) :
    retryGo outcomes pd now m a (f + 1) = ⟨.error (.client ce), 1, []⟩ := by
  unfold retryGo
  rw [h]
  simp only
  rw [if_neg hcond]

theorem retryGo_step_client_errhint (outcomes : Nat → OcrOutcome)
    (pd : String → Option ℚ) (now : ℚ) (m a f : Nat) (ce : ClientError)
    (err : OcrError) (h : outcomes a = .clientErr ce)
    (hcond : ce.code = 429 ∧ a < m)
    (herr : getRetryAfterSeconds pd now ce = .error err) :
    retryGo outcomes pd now m a (f + 1) = ⟨.error err, 1, []⟩ := by
  unfold retryGo
  rw [h]
  simp only
  rw [if_pos hcond, herr]

/-- Claim C4 (amended): the retry controller performs at most 3 attempts and
exactly one more attempt than sleeps; if the first `k ≤ 2` attempts are 429s
with usable `Retry-After` hints, the first `k` sleeps are exactly the hinted
delays (digit value, or date minus now clamped to ≥ 0) and at least `k + 1`
calls are made; a 429 without a usable hint, met while budget remains,
propagates the hint-reading error immediately with no sleep. -/
theorem C4_retry_backoff_amended (outcomes : Nat → OcrOutcome)
    (pd : String → Option ℚ) (now : ℚ) :
    ((geminiOcrWithRetry outcomes pd now 2).calls =
      (geminiOcrWithRetry outcomes pd now 2).sleeps.length + 1 ∧
     (geminiOcrWithRetry outcomes pd now 2).calls ≤ 3) ∧
    (∀ k, k ≤ 2 → (∀ j, j < k → usable429 pd (outcomes j) = true) →
      (geminiOcrWithRetry outcomes pd now 2).sleeps.take k =
        (List.range k).map (fun j => outcomeDelay pd now (outcomes j)) ∧
      k + 1 ≤ (geminiOcrWithRetry outcomes pd now 2).calls) ∧
    (∀ j, j < 2 → (∀ i, i < j → usable429 pd (outcomes i) = true) →
      ∀ ce, outcomes j = .clientErr ce → ce.code = 429 →
        usableHint pd ce = false →
      ∃ err, getRetryAfterSeconds pd now ce = .error err ∧
        geminiOcrWithRetry outcomes pd now 2 =
          ⟨.error err, j + 1,
            (List.range j).map fun i => outcomeDelay pd now (outcomes i)⟩) := by
  refine ⟨?_, ?_, ?_⟩
  · unfold geminiOcrWithRetry
    exact retryGo_count outcomes pd now 2 (2 + 1) 0 (by omega) (by omega)
  · intro k hk husable
    unfold geminiOcrWithRetry
    rw [retryGo_skip outcomes pd now 2 k (2 + 1) 0 (by omega) (by omega)
      (fun i hi => by simpa using husable i hi)]
    simp only [Nat.zero_add]
    have hcount := retryGo_count outcomes pd now 2 (2 + 1 - k) k
      (by omega) (by omega)
    constructor
    · show ((List.range k).map (fun i => outcomeDelay pd now (outcomes i)) ++
        (retryGo outcomes pd now 2 k (2 + 1 - k)).sleeps).take k =
        (List.range k).map fun j => outcomeDelay pd now (outcomes j)
      have hlen : ((List.range k).map fun i =>
          outcomeDelay pd now (outcomes i)).length = k := by simp
      have htl := List.take_left
        ((List.range k).map fun i => outcomeDelay pd now (outcomes i))
        (retryGo outcomes pd now 2 k (2 + 1 - k)).sleeps
      rw [hlen] at htl
      exact htl
    · show k + 1 ≤ (retryGo outcomes pd now 2 k (2 + 1 - k)).calls + k
      omega
  · intro j hj husable ce houtcome hcode hhint
    obtain ⟨err, herr⟩ := getRetryAfter_error pd now ce hhint
    refine ⟨err, herr, ?_⟩
    unfold geminiOcrWithRetry
    rw [retryGo_skip outcomes pd now 2 j (2 + 1) 0 (by omega) (by omega)
      (fun i hi => by simpa using husable i hi)]
    simp only [Nat.zero_add]
    interval_cases j
    · have hstep : retryGo outcomes pd now 2 0 (2 + 1 - 0) =
          ⟨.error err, 1, []⟩ := by
        rw [show (2 + 1 - 0 : ℕ) = 2 + 1 from rfl]
        exact retryGo_step_client_errhint outcomes pd now 2 0 2 ce err
          houtcome ⟨hcode, by omega⟩ herr
      rw [hstep]
      simp
    · have hstep : retryGo outcomes pd now 2 1 (2 + 1 - 1) =
          ⟨.error err, 1, []⟩ := by
        rw [show (2 + 1 - 1 : ℕ) = 1 + 1 from rfl]
        exact retryGo_step_client_errhint outcomes pd now 2 1 1 ce err
          houtcome ⟨hcode, by omega⟩ herr
      rw [hstep]
      simp

end McpLocalRag
namespace McpLocalRag

/-- Claim C5 (amended): a 429 with a usable Retry-After hint surfaces only
on the final (third) attempt; after any prefix of usable 429s, an error of a
different class — or a non-429 client error — propagates immediately
without further attempts; exhausting the budget re-raises the final 429
client error itself, never the dead retries-exhausted RuntimeError. -/
theorem C5_error_propagation_amended (outcomes : Nat → OcrOutcome)
    (pd : String → Option ℚ) (now : ℚ) :
    (∀ ce, (geminiOcrWithRetry outcomes pd now 2).result =
        .error (.client ce) → ce.code = 429 → usableHint pd ce = true →
      (geminiOcrWithRetry outcomes pd now 2).calls = 3) ∧
    (∀ j, j < 3 → (∀ i, i < j → usable429 pd (outcomes i) = true) →
      (∀ e, outcomes j = .otherErr e →
        geminiOcrWithRetry outcomes pd now 2 =
          ⟨.error (.other e), j + 1,
            (List.range j).map fun i => outcomeDelay pd now (outcomes i)⟩) ∧
      (∀ ce, outcomes j = .clientErr ce → ¬(ce.code = 429) →
        geminiOcrWithRetry outcomes pd now 2 =
          ⟨.error (.client ce), j + 1,
            (List.range j).map fun i => outcomeDelay pd now (outcomes i)⟩)) ∧
    ((∀ i, i < 2 → usable429 pd (outcomes i) = true) →
      ∀ ce, outcomes 2 = .clientErr ce → ce.code = 429 →
        geminiOcrWithRetry outcomes pd now 2 =
          ⟨.error (.client ce), 3,
            (List.range 2).map fun i => outcomeDelay pd now (outcomes i)⟩ ∧
        (geminiOcrWithRetry outcomes pd now 2).result ≠
          .error (.runtime "Gemini OCR retries exhausted.")) := by
  refine ⟨?_, ?_, ?_⟩
  · intro ce hres hcode hhint
    unfold geminiOcrWithRetry at hres ⊢
    exact retryGo_429_usable_exhausts outcomes pd now 2 (2 + 1) 0 (by omega)
      ce hres hcode hhint
  · intro j hj husable
    constructor
    · intro e houtcome
      unfold geminiOcrWithRetry
      rw [retryGo_skip outcomes pd now 2 j (2 + 1) 0 (by omega) (by omega)
        (fun i hi => by simpa using husable i hi)]
      simp only [Nat.zero_add]
      interval_cases j
      · rw [show (2 + 1 - 0 : ℕ) = 2 + 1 from rfl,
          retryGo_step_other outcomes pd now 2 0 2 e houtcome]
        simp
      · rw [show (2 + 1 - 1 : ℕ) = 1 + 1 from rfl,
          retryGo_step_other outcomes pd now 2 1 1 e houtcome]
        simp
      · rw [show (2 + 1 - 2 : ℕ) = 0 + 1 from rfl,
          retryGo_step_other outcomes pd now 2 2 0 e houtcome]
        simp
    · intro ce houtcome hcode
      unfold geminiOcrWithRetry
      rw [retryGo_skip outcomes pd now 2 j (2 + 1) 0 (by omega) (by omega)
        (fun i hi => by simpa using husable i hi)]
      simp only [Nat.zero_add]
      have hcond : ¬(ce.code = 429 ∧ True) := by simp [hcode]
      interval_cases j
      · rw [show (2 + 1 - 0 : ℕ) = 2 + 1 from rfl,
          retryGo_step_client_stop outcomes pd now 2 0 2 ce houtcome
            (by simp [hcode])]
        simp
      · rw [show (2 + 1 - 1 : ℕ) = 1 + 1 from rfl,
          retryGo_step_client_stop outcomes pd now 2 1 1 ce houtcome
            (by simp [hcode])]
        simp
      · rw [show (2 + 1 - 2 : ℕ) = 0 + 1 from rfl,
          retryGo_step_client_stop outcomes pd now 2 2 0 ce houtcome
            (by simp [hcode])]
        simp
  · intro husable ce houtcome hcode
    have hrun : geminiOcrWithRetry outcomes pd now 2 =
        ⟨.error (.client ce), 3,
          (List.range 2).map fun i => outcomeDelay pd now (outcomes i)⟩ := by
      unfold geminiOcrWithRetry
      rw [retryGo_skip outcomes pd now 2 2 (2 + 1) 0 (by omega) (by omega)
        (fun i hi => by simpa using husable i hi)]
      simp only [Nat.zero_add]
      rw [show (2 + 1 - 2 : ℕ) = 0 + 1 from rfl,
        retryGo_step_client_stop outcomes pd now 2 2 0 ce houtcome
          (by simp)]
      simp
    refine ⟨hrun, ?_⟩
    rw [hrun]
    simp

end McpLocalRag
namespace McpLocalRag

theorem lookup_cons_ne {β : Type} (k : String × Nat)
    (e : (String × Nat) × β) (rest : List ((String × Nat) × β))
    (hne : k ≠ e.1) : (e :: rest).lookup k = rest.lookup k := by
  cases e with
  | mk ek ev =>
    simp only [List.lookup]
    have hbeq : (k == ek) = false := beq_eq_false_iff_ne.2 hne
    rw [hbeq]

theorem lookup_cons_eq {β : Type} (k : String × Nat) (v : β)
    (rest : List ((String × Nat) × β)) :
    ((k, v) :: rest).lookup k = some v := by
  simp only [List.lookup, beq_self_eq_true]

theorem lookup_filter_ne {β : Type} (k k2 : String × Nat) (hne : k ≠ k2) :
    ∀ (l : List ((String × Nat) × β)),
    (l.filter fun e => !(e.1 = k2 : Bool)).lookup k = l.lookup k := by
  intro l
  induction l with
  | nil => rfl
  | cons e rest ih =>
    by_cases hek : e.1 = k2
    · rw [List.filter_cons_of_neg (by simp [hek]), ih,
        lookup_cons_ne k e rest (by rw [hek]; exact hne)]
    · rw [List.filter_cons_of_pos (by simp [hek])]
      by_cases hke : k = e.1
      · cases e with
        | mk ek ev =>
          simp only at hke
          subst hke
          rw [lookup_cons_eq, lookup_cons_eq]
      · rw [lookup_cons_ne k e _ hke, lookup_cons_ne k e rest hke, ih]

theorem get_cached_cache_ne (st : MetadataStore) (h : String)
    (i j : Nat) (content : String) (hne : i ≠ j) :
    (st.cache_page h j content).get_cached_page h i =
      st.get_cached_page h i := by
  unfold MetadataStore.cache_page MetadataStore.get_cached_page
    cachePageRow getCachedPageRow
  simp only
  rw [lookup_cons_ne (h, i) ((h, j), content) _ (by simp [hne]),
    lookup_filter_ne (h, i) (h, j) (by simp [hne])]

theorem get_cached_cache_eq (st : MetadataStore) (h : String) (i : Nat)
    (content : String) :
    (st.cache_page h i content).get_cached_page h i = some content := by
  unfold MetadataStore.cache_page MetadataStore.get_cached_page
    cachePageRow getCachedPageRow
  simp only
  exact lookup_cons_eq (h, i) content _

end McpLocalRag
namespace McpLocalRag

theorem decidePages_items (fileHash : String) (method : ExtractionMethod)
    (gemCfg : Bool) :
    ∀ (pages : List PageSpec) (i0 : Nat) (st : MetadataStore),
    (decidePages fileHash method gemCfg st pages i0).1 =
      (pages.enumFrom i0).map fun ip =>
        specItem fileHash method gemCfg st ip.1 ip.2 := by
  intro pages
  induction pages with
  | nil => intro i0 st; rfl
  | cons p rest ih =>
    intro i0 st
    rw [List.enumFrom_cons, List.map_cons]
    unfold decidePages
    cases hcache : st.get_cached_page fileHash i0 with
    | some c =>
      simp only
      rw [ih (i0 + 1) st]
      congr 1
      unfold specItem
      rw [hcache]
    | none =>
      simp only
      by_cases hg : useGemini method gemCfg p = true
      · rw [if_pos hg]
        simp only
        rw [ih (i0 + 1) st]
        congr 1
        unfold specItem
        rw [hcache, if_pos hg]
      · rw [if_neg hg]
        simp only
        rw [ih (i0 + 1) (st.cache_page fileHash i0 p.localText)]
        congr 1
        · unfold specItem
          rw [hcache, if_neg hg]
        · apply List.map_congr_left
          intro ip hip
          have hge : i0 + 1 ≤ ip.1 := (List.mem_enumFrom hip).1
          unfold specItem
          rw [get_cached_cache_ne st fileHash ip.1 i0 p.localText (by omega)]

theorem runTasks_preserve (fileHash : String) (pages : List PageSpec)
    (i : Nat) :
    ∀ (σ : List Nat) (st : MetadataStore), (∀ j ∈ σ, j ≠ i) →
    (runTasks fileHash pages st σ).get_cached_page fileHash i =
      st.get_cached_page fileHash i := by
  intro σ
  induction σ with
  | nil => intro st _; rfl
  | cons j rest ih =>
    intro st hne
    unfold runTasks
    cases houtcome : ocrOutcomeAt pages j with
    | ok text =>
      rw [ih _ (fun x hx => hne x (by simp [hx])),
        get_cached_cache_ne st fileHash i j text
          (fun hcontra => hne j (by simp) hcontra.symm)]
    | error e => exact ih _ (fun x hx => hne x (by simp [hx]))

theorem runTasks_lookup (fileHash : String) (pages : List PageSpec) :
    ∀ (σ : List Nat) (st : MetadataStore) (i : Nat) (s : String),
    σ.Nodup → i ∈ σ → ocrOutcomeAt pages i = .ok s →
    (runTasks fileHash pages st σ).get_cached_page fileHash i = some s := by
  intro σ
  induction σ with
  | nil => intro st i s _ hmem; simp at hmem
  | cons j rest ih =>
    intro st i s hnd hmem hok
    by_cases hij : i = j
    · subst hij
      unfold runTasks
      rw [hok]
      simp only
      rw [runTasks_preserve fileHash pages i rest _
        (fun x hx hcontra => (List.nodup_cons.1 hnd).1 (hcontra ▸ hx)),
        get_cached_cache_eq]
    · unfold runTasks
      have hmem2 : i ∈ rest := by
        rcases List.mem_cons.1 hmem with h | h
        · exact absurd h hij
        · exact h
      cases houtcome : ocrOutcomeAt pages j with
      | ok text => exact ih _ i s (List.nodup_cons.1 hnd).2 hmem2 hok
      | error e => exact ih _ i s (List.nodup_cons.1 hnd).2 hmem2 hok

theorem gather_lookup (pages : List PageSpec) :
    ∀ (σ : List Nat) (i : Nat), i ∈ σ →
    ((σ.map fun j => (j, ocrOutcomeAt pages j)).lookup i) =
      some (ocrOutcomeAt pages i) := by
  intro σ
  induction σ with
  | nil => intro i hmem; simp at hmem
  | cons j rest ih =>
    intro i hmem
    rw [List.map_cons]
    by_cases hij : i = j
    · subst hij
      simp only [List.lookup, beq_self_eq_true]
    · have hmem2 : i ∈ rest := by
        rcases List.mem_cons.1 hmem with h | h
        · exact absurd h hij
        · exact h
      simp only [List.lookup, beq_eq_false_iff_ne.2 hij]
      exact ih i hmem2

theorem gatherResults_eq (pages : List PageSpec) (tasks σ : List Nat)
    (hsub : ∀ i ∈ tasks, i ∈ σ) :
    gatherResults pages tasks σ = tasks.map (ocrOutcomeAt pages) := by
  unfold gatherResults
  apply List.map_congr_left
  intro i hi
  rw [gather_lookup pages σ i (hsub i hi)]
  rfl

end McpLocalRag
namespace McpLocalRag

theorem tasksOf_inline (s : String) (items : List PageItem) :
    tasksOf (.inline s :: items) = tasksOf items := rfl

theorem tasksOf_task (i : Nat) (items : List PageItem) :
    tasksOf (.task i :: items) = i :: tasksOf items := rfl

theorem assembleGo_spec (fileHash : String) (method : ExtractionMethod)
    (gemCfg : Bool) (st : MetadataStore) (pagesAll : List PageSpec) :
    ∀ (suffix : List PageSpec) (i0 : Nat),
    (∀ k p, suffix.get? k = some p → pagesAll.get? (i0 + k) = some p) →
    assembleGo
      ((suffix.enumFrom i0).map fun ip =>
        specItem fileHash method gemCfg st ip.1 ip.2)
      ((tasksOf ((suffix.enumFrom i0).map fun ip =>
        specItem fileHash method gemCfg st ip.1 ip.2)).map
          (ocrOutcomeAt pagesAll))
      i0 =
    ((suffix.enumFrom i0).map (fun ip =>
        match expectedPageText fileHash method gemCfg st ip.1 ip.2 with
        | .ok s => s
        | .error _ => ""),
      (suffix.enumFrom i0).filterMap fun ip =>
        match st.get_cached_page fileHash ip.1 with
        | some _ => none
        | none =>
          if useGemini method gemCfg ip.2 then
            match ip.2.ocrText with
            | .ok _ => none
            | .error _ => some (ip.1 + 1)
          else none) := by
  intro suffix
  induction suffix with
  | nil => intro i0 _; rfl
  | cons p rest ih =>
    intro i0 hget
    have hp : pagesAll.get? i0 = some p := by
      have := hget 0 p (by simp)
      rwa [Nat.add_zero] at this
    have hocr : ocrOutcomeAt pagesAll i0 = p.ocrText := by
      unfold ocrOutcomeAt
      rw [hp]
    have hgetrest : ∀ k q, rest.get? k = some q →
        pagesAll.get? (i0 + 1 + k) = some q := by
      intro k q hk
      have := hget (k + 1) q (by simpa using hk)
      rwa [show i0 + (k + 1) = i0 + 1 + k by omega] at this
    have ihr := ih (i0 + 1) hgetrest
    rw [List.enumFrom_cons, List.map_cons, List.filterMap_cons, List.map_cons]
    cases hcache : st.get_cached_page fileHash i0 with
    | some c =>
      have hitem : specItem fileHash method gemCfg st i0 p = .inline c := by
        unfold specItem; rw [hcache]
      have hexp : expectedPageText fileHash method gemCfg st i0 p = .ok c := by
        unfold expectedPageText; rw [hcache]
      rw [hitem, hexp, tasksOf_inline]
      unfold assembleGo
      rw [ihr]
    | none =>
      by_cases hg : useGemini method gemCfg p = true
      · have hitem : specItem fileHash method gemCfg st i0 p = .task i0 := by
          unfold specItem; rw [hcache, if_pos hg]
        have hexp : expectedPageText fileHash method gemCfg st i0 p =
            p.ocrText := by
          unfold expectedPageText; rw [hcache, if_pos hg]
        rw [hitem, hexp, tasksOf_task, List.map_cons]
        cases hocrv : p.ocrText with
        | ok s =>
          unfold assembleGo
          rw [hocr, hocrv]
          simp only
          rw [ihr]
          simp [hcache, hg, hocrv]
        | error e =>
          unfold assembleGo
          rw [hocr, hocrv]
          simp only
          rw [ihr]
          simp [hcache, hg, hocrv]
      · have hitem : specItem fileHash method gemCfg st i0 p =
            .inline p.localText := by
          unfold specItem; rw [hcache, if_neg hg]
        have hexp : expectedPageText fileHash method gemCfg st i0 p =
            .ok p.localText := by
          unfold expectedPageText; rw [hcache, if_neg hg]
        rw [hitem, hexp, tasksOf_inline]
        unfold assembleGo
        rw [ihr]
        simp [hcache, hg]

theorem tasksOf_specMap_bound (fileHash : String) (method : ExtractionMethod)
    (gemCfg : Bool) (st : MetadataStore) :
    ∀ (suffix : List PageSpec) (i0 x : Nat),
    x ∈ tasksOf ((suffix.enumFrom i0).map fun ip =>
      specItem fileHash method gemCfg st ip.1 ip.2) → i0 ≤ x := by
  intro suffix
  induction suffix with
  | nil => intro i0 x h; simp [tasksOf] at h
  | cons p rest ih =>
    intro i0 x h
    rw [List.enumFrom_cons, List.map_cons] at h
    cases hcache : st.get_cached_page fileHash i0 with
    | some c =>
      rw [show specItem fileHash method gemCfg st i0 p = .inline c by
        unfold specItem; rw [hcache], tasksOf_inline] at h
      have := ih (i0 + 1) x h
      omega
    | none =>
      by_cases hg : useGemini method gemCfg p = true
      · rw [show specItem fileHash method gemCfg st i0 p = .task i0 by
          unfold specItem; rw [hcache, if_pos hg], tasksOf_task] at h
        rcases List.mem_cons.1 h with h | h
        · omega
        · have := ih (i0 + 1) x h
          omega
      · rw [show specItem fileHash method gemCfg st i0 p =
            .inline p.localText by
          unfold specItem; rw [hcache, if_neg hg], tasksOf_inline] at h
        have := ih (i0 + 1) x h
        omega

theorem tasksOf_specMap_nodup (fileHash : String) (method : ExtractionMethod)
    (gemCfg : Bool) (st : MetadataStore) :
    ∀ (suffix : List PageSpec) (i0 : Nat),
    (tasksOf ((suffix.enumFrom i0).map fun ip =>
      specItem fileHash method gemCfg st ip.1 ip.2)).Nodup := by
  intro suffix
  induction suffix with
  | nil => intro i0; simp [tasksOf]
  | cons p rest ih =>
    intro i0
    rw [List.enumFrom_cons, List.map_cons]
    cases hcache : st.get_cached_page fileHash i0 with
    | some c =>
      rw [show specItem fileHash method gemCfg st i0 p = .inline c by
        unfold specItem; rw [hcache], tasksOf_inline]
      exact ih (i0 + 1)
    | none =>
      by_cases hg : useGemini method gemCfg p = true
      · rw [show specItem fileHash method gemCfg st i0 p = .task i0 by
          unfold specItem; rw [hcache, if_pos hg], tasksOf_task]
        rw [List.nodup_cons]
        refine ⟨?_, ih (i0 + 1)⟩
        intro hmem
        have := tasksOf_specMap_bound fileHash method gemCfg st rest
          (i0 + 1) i0 hmem
        omega
      · rw [show specItem fileHash method gemCfg st i0 p =
            .inline p.localText by
          unfold specItem; rw [hcache, if_neg hg], tasksOf_inline]
        exact ih (i0 + 1)

end McpLocalRag
namespace McpLocalRag

theorem enum_getAt (pages : List PageSpec) (ip : Nat × PageSpec)
    (h : ip ∈ pages.enumFrom 0) : pages.get? ip.1 = some ip.2 := by
  cases ip with
  | mk i p =>
    rw [List.get?_eq_getElem?]
    exact (List.mk_mem_enum_iff_getElem?).1 h

theorem mem_tasks_of_page (fileHash : String) (method : ExtractionMethod)
    (gemCfg : Bool) (st : MetadataStore) (pages : List PageSpec)
    (i : Nat) (p : PageSpec) (hp : pages.get? i = some p)
    (hcache : st.get_cached_page fileHash i = none)
    (hg : useGemini method gemCfg p = true) :
    i ∈ tasksOf ((pages.enumFrom 0).map fun ip =>
      specItem fileHash method gemCfg st ip.1 ip.2) := by
  have hmem : (i, p) ∈ pages.enumFrom 0 := by
    apply (List.mk_mem_enum_iff_getElem?).2
    rw [← List.get?_eq_getElem?]
    exact hp
  unfold tasksOf
  apply List.mem_filterMap.2
  refine ⟨.task i, ?_, rfl⟩
  apply List.mem_map.2
  refine ⟨(i, p), hmem, ?_⟩
  unfold specItem
  rw [hcache, if_pos hg]

/-- Claim C2: in hybrid page-by-page PDF extraction, for every completion
interleaving `σ` of the OCR tasks, when all tasked OCR outcomes succeed, the
returned content equals the per-page texts (cached, OCR and local alike)
arranged in physical page-index order and joined with the two-newline
separator — never in completion order. -/
theorem C2_page_order_invariant (fileName fileHash : String) (method : ExtractionMethod)
    (gemCfg : Bool) (pages : List PageSpec) (σ : List Nat)
    (st : MetadataStore)
    (hperm : List.Perm σ (hybridTasks fileHash method gemCfg st pages))
    (hok : ∀ i p, pages.get? i = some p →
      st.get_cached_page fileHash i = none →
      useGemini method gemCfg p = true → ∃ s, p.ocrText = .ok s) :
    (extractPdfHybrid fileName fileHash method gemCfg pages σ st).result =
      .ok (String.intercalate "\n\n"
        (expectedTexts fileHash method gemCfg st pages)) := by
  have hitems := decidePages_items fileHash method gemCfg pages 0 st
  have hget : ∀ k q, pages.get? k = some q → pages.get? (0 + k) = some q := by
    intro k q hk
    rwa [Nat.zero_add]
  have hspec := assembleGo_spec fileHash method gemCfg st pages pages 0 hget
  have hfailnil : (pages.enumFrom 0).filterMap (fun ip =>
      match st.get_cached_page fileHash ip.1 with
      | some _ => none
      | none =>
        if useGemini method gemCfg ip.2 = true then
          match ip.2.ocrText with
          | .ok _ => none
          | .error _ => some (ip.1 + 1)
        else none) = [] := by
    apply List.filterMap_eq_nil_iff.2
    intro ip hip
    cases hcache : st.get_cached_page fileHash ip.1 with
    | some c => simp
    | none =>
      simp only
      by_cases hg : useGemini method gemCfg ip.2 = true
      · obtain ⟨s, hs⟩ := hok ip.1 ip.2 (enum_getAt pages ip hip) hcache hg
        rw [if_pos hg, hs]
      · rw [if_neg hg]
  have hexp : expectedTexts fileHash method gemCfg st pages =
      (pages.enumFrom 0).map (fun ip =>
        match expectedPageText fileHash method gemCfg st ip.1 ip.2 with
        | .ok s => s
        | .error _ => "") := rfl
  unfold extractPdfHybrid
  rw [hitems]
  by_cases hempty : (tasksOf ((pages.enumFrom 0).map fun ip =>
      specItem fileHash method gemCfg st ip.1 ip.2)).isEmpty
  · rw [if_pos hempty]
    have htnil := List.isEmpty_iff.1 hempty
    rw [htnil, List.map_nil] at hspec
    rw [hspec, hexp]
  · rw [if_neg hempty]
    have hsub : ∀ i, i ∈ tasksOf ((pages.enumFrom 0).map fun ip =>
        specItem fileHash method gemCfg st ip.1 ip.2) → i ∈ σ := by
      intro i hi
      apply (hperm.mem_iff).2
      unfold hybridTasks
      rw [hitems]
      exact hi
    rw [gatherResults_eq pages _ σ hsub, hspec]
    simp only [hfailnil]
    rw [hexp]
    simp

end McpLocalRag
namespace McpLocalRag

/-- Claim C3: if any per-page OCR task fails after retries, the hybrid
extraction still consumes every sibling task (any completion interleaving
`σ` of all tasks), fails the document with the error message naming every
failed page (1-based page numbers, in page order), and every page whose OCR
succeeded has been written through to the page cache in the state carried by
the failing call. -/
theorem C3_ocr_failure_policy (fileName fileHash : String) (method : ExtractionMethod)
    (gemCfg : Bool) (pages : List PageSpec) (σ : List Nat)
    (st : MetadataStore)
    (hperm : List.Perm σ (hybridTasks fileHash method gemCfg st pages))
    (hfail : failedPagesSpec fileHash method gemCfg st pages ≠ []) :
    (extractPdfHybrid fileName fileHash method gemCfg pages σ st).result =
      .error (ocrFailureMessage fileName
        (failedPagesSpec fileHash method gemCfg st pages)) ∧
    (∀ i p s, pages.get? i = some p →
      st.get_cached_page fileHash i = none →
      useGemini method gemCfg p = true → p.ocrText = .ok s →
      (extractPdfHybrid fileName fileHash method gemCfg pages σ
        st).store.get_cached_page fileHash i = some s) := by
  have hitems := decidePages_items fileHash method gemCfg pages 0 st
  have hget : ∀ k q, pages.get? k = some q → pages.get? (0 + k) = some q := by
    intro k q hk
    rwa [Nat.zero_add]
  have hspec := assembleGo_spec fileHash method gemCfg st pages pages 0 hget
  have hfailspec : failedPagesSpec fileHash method gemCfg st pages =
      (pages.enumFrom 0).filterMap (fun ip =>
        match st.get_cached_page fileHash ip.1 with
        | some _ => none
        | none =>
          if useGemini method gemCfg ip.2 = true then
            match ip.2.ocrText with
            | .ok _ => none
            | .error _ => some (ip.1 + 1)
          else none) := rfl
  have htasksne : ¬(tasksOf ((pages.enumFrom 0).map fun ip =>
      specItem fileHash method gemCfg st ip.1 ip.2)).isEmpty = true := by
    intro hempty
    have htnil := List.isEmpty_iff.1 hempty
    obtain ⟨x, hx⟩ := List.exists_mem_of_ne_nil _ hfail
    rw [hfailspec] at hx
    obtain ⟨ip, hip, hfx⟩ := List.mem_filterMap.1 hx
    have hp := enum_getAt pages ip hip
    cases hcache : st.get_cached_page fileHash ip.1 with
    | some c => rw [hcache] at hfx; cases hfx
    | none =>
      rw [hcache] at hfx
      simp only at hfx
      by_cases hg : useGemini method gemCfg ip.2 = true
      · have hmem := mem_tasks_of_page fileHash method gemCfg st pages
          ip.1 ip.2 hp hcache hg
        rw [htnil] at hmem
        simp at hmem
      · rw [if_neg hg] at hfx
        cases hfx
  have hsub : ∀ i, i ∈ tasksOf ((pages.enumFrom 0).map fun ip =>
      specItem fileHash method gemCfg st ip.1 ip.2) → i ∈ σ := by
    intro i hi
    apply (hperm.mem_iff).2
    unfold hybridTasks
    rw [hitems]
    exact hi
  have hσnd : σ.Nodup := by
    have htnd := tasksOf_specMap_nodup fileHash method gemCfg st pages 0
    apply hperm.symm.nodup
    unfold hybridTasks
    rw [hitems]
    exact htnd
  have hfailne : ((pages.enumFrom 0).filterMap (fun ip =>
      match st.get_cached_page fileHash ip.1 with
      | some _ => none
      | none =>
        if useGemini method gemCfg ip.2 = true then
          match ip.2.ocrText with
          | .ok _ => none
          | .error _ => some (ip.1 + 1)
        else none)).isEmpty = false := by
    rw [← hfailspec]
    cases hps : failedPagesSpec fileHash method gemCfg st pages with
    | nil => exact absurd hps hfail
    | cons y ys => rfl
  constructor
  · unfold extractPdfHybrid
    rw [hitems, if_neg htasksne, gatherResults_eq pages _ σ hsub, hspec]
    simp only [hfailne, Bool.false_eq_true, if_false]
    rw [hfailspec]
  · intro i p s hp hcache hg hs
    unfold extractPdfHybrid
    rw [hitems, if_neg htasksne, gatherResults_eq pages _ σ hsub, hspec]
    simp only [hfailne, Bool.false_eq_true, if_false]
    have hmem : i ∈ σ :=
      hsub i (mem_tasks_of_page fileHash method gemCfg st pages i p hp
        hcache hg)
    have hp2 : pages[i]? = some p := by
      rw [← List.get?_eq_getElem?]
      exact hp
    have houtcome : ocrOutcomeAt pages i = .ok s := by
      simp [ocrOutcomeAt, hp2, hs]
    exact runTasks_lookup fileHash pages σ _ i s hσnd hmem houtcome

end McpLocalRag
namespace McpLocalRag

theorem find?_map_pred (p : DocumentRecord → Bool)
    (f : DocumentRecord → DocumentRecord) (hp : ∀ d, p (f d) = p d) :
    ∀ (docs : List DocumentRecord),
    (docs.map f).find? p = (docs.find? p).map f := by
  intro docs
  induction docs with
  | nil => rfl
  | cons d rest ih =>
    rw [List.map_cons]
    cases hpd : p d with
    | true =>
      rw [List.find?_cons_of_pos _ (by rw [hp]; exact hpd),
        List.find?_cons_of_pos _ hpd]
      rfl
    | false =>
      rw [List.find?_cons_of_neg _ (by rw [hp, hpd]; simp),
        List.find?_cons_of_neg _ (by rw [hpd]; simp), ih]

theorem update_mtime_erase (st : MetadataStore) (docId : String) (mtime : ℚ) :
    (st.update_document_mtime docId mtime).documents.map eraseMtime =
      st.documents.map eraseMtime := by
  unfold MetadataStore.update_document_mtime
  simp only [List.map_map]
  apply List.map_congr_left
  intro d _
  simp only [Function.comp]
  by_cases hd : d.doc_id = docId
  · rw [if_pos hd]
    rfl
  · rw [if_neg hd]

theorem update_mtime_get_by_path (st : MetadataStore) (path collection : String)
    (existing : DocumentRecord) (mtime : ℚ)
    (hrec : st.get_document_by_path path collection = some existing) :
    (st.update_document_mtime existing.doc_id mtime).get_document_by_path
      path collection = some { existing with file_mtime := mtime } := by
  unfold MetadataStore.get_document_by_path at hrec ⊢
  unfold MetadataStore.update_document_mtime
  simp only
  rw [find?_map_pred _ _ (fun d => by by_cases hd : d.doc_id = existing.doc_id
      <;> simp [hd]) st.documents, hrec]
  simp

/-- Claim C8: for a non-forced index call with an existing DocumentRecord,
(1) if the recorded mtime equals the current mtime the call returns success
with the state untouched and no extraction/chunking/embedding effect;
(2) if the mtime differs but the recomputed hash equals the recorded hash,
only the stored mtime is updated — the records erased of their mtimes, the
page cache, and the vector store are unchanged, the re-read record differs
only in its mtime — extraction is skipped, and success is returned. -/
theorem C8_incremental_skip_paths (makeDocId : String → String → String)
    (chunkFn : String → List String) (embedOk : Bool) (inp : IndexInput)
    (collection : String) (st : IndexerState) (existing : DocumentRecord)
    (hexists : inp.file_exists = true) (hsupp : inp.supported = true)
    (hrec : st.meta.get_document_by_path inp.abs_path collection =
      some existing) :
    (existing.file_mtime = inp.current_mtime →
      indexSingleFile makeDocId chunkFn embedOk inp collection false st =
        (⟨inp.file_path, true, none⟩, st, [])) ∧
    (existing.file_mtime ≠ inp.current_mtime →
      inp.current_hash = existing.file_hash →
      indexSingleFile makeDocId chunkFn embedOk inp collection false st =
        (⟨inp.file_path, true, none⟩,
          ⟨st.meta.update_document_mtime existing.doc_id inp.current_mtime,
            st.vec⟩, []) ∧
      (st.meta.update_document_mtime existing.doc_id
        inp.current_mtime).documents.map eraseMtime =
        st.meta.documents.map eraseMtime ∧
      (st.meta.update_document_mtime existing.doc_id
        inp.current_mtime).page_cache = st.meta.page_cache ∧
      (st.meta.update_document_mtime existing.doc_id
        inp.current_mtime).get_document_by_path inp.abs_path collection =
        some { existing with file_mtime := inp.current_mtime }) := by
  constructor
  · intro hmt
    simp [indexSingleFile, hexists, hsupp, hrec, hmt]
  · intro hmt hhash
    refine ⟨?_, update_mtime_erase st.meta existing.doc_id inp.current_mtime,
      rfl, update_mtime_get_by_path st.meta inp.abs_path collection existing
        inp.current_mtime hrec⟩
    simp [indexSingleFile, hexists, hsupp, hrec, hmt, hhash]

end McpLocalRag
namespace McpLocalRag

/-- Claim C1 (code bug): a call reaching the full-reindex path with a
successful extraction, one chunk, and successful embedding does NOT upsert
the DocumentRecord, does NOT clear the page cache, and returns a failure:
the `add_document` call at indexing.py:146 omits the required
`markdown_path` parameter (metadata.py:163), so Python raises `TypeError`
inside the try-block — after the vector chunks were already inserted.  The
final conjunct shows the upsert itself works when given its required
argument, isolating the fault to the call site. -/
theorem C1_full_reindex_typeerror :
    indexSingleFile exMakeDocId exChunkFn true exIndexInput "lib" false
      exEmptyState =
      (⟨"/docs/note.txt", false,
        some ("Indexing failed for note.txt: TypeError: add_document " ++
          "missing 1 required positional argument: markdown_path")⟩,
        ⟨⟨[], []⟩,
          ⟨[⟨"hello world", "lib:/docs/note.txt", "/docs/note.txt", "lib",
            0⟩]⟩⟩,
        [.extraction, .chunking, .embedding]) ∧
    (exEmptyState.meta.add_document "lib:/docs/note.txt" "/docs/note.txt"
        "h1" 5 "plaintext" "lib" 1 "/md/note.md" 0).documents ≠ [] := by
  decide

/-- Claim C2 witness: the four-page example (page 0 cached, pages 1 and 3
OCR, page 2 local) under the reversed completion schedule `[3, 1]`. -/
theorem C2_page_order_invariant_witness :
    (extractPdfHybrid "f.pdf" "H" .auto true exPagesOk [3, 1]
      exStoreH).result =
      .ok (String.intercalate "\n\n"
        (expectedTexts "H" .auto true exStoreH exPagesOk)) := by
  apply C2_page_order_invariant "f.pdf" "H" .auto true exPagesOk [3, 1]
    exStoreH (by decide)
  intro i p hp hc hg
  have hlen : i < 4 := by
    by_contra hge
    rw [List.get?_len_le (by simpa using Nat.le_of_not_lt hge)] at hp
    cases hp
  interval_cases i
  · exact absurd hc (by decide)
  · injection hp with h
    subst h
    exact ⟨"o1", rfl⟩
  · injection hp with h
    subst h
    exact absurd hg (by decide)
  · injection hp with h
    subst h
    exact ⟨"o3", rfl⟩

/-- Claim C3 witness: page 1 of the four-page example fails OCR after
retries; under schedule `[3, 1]` the run raises the message naming page 2
(1-based) and the sibling page 3 text is cached in the returned state. -/
theorem C3_ocr_failure_policy_witness :
    (extractPdfHybrid "f.pdf" "H" .auto true exPagesFail [3, 1]
      exStoreH).result =
      .error (ocrFailureMessage "f.pdf"
        (failedPagesSpec "H" .auto true exStoreH exPagesFail)) ∧
    (extractPdfHybrid "f.pdf" "H" .auto true exPagesFail [3, 1]
      exStoreH).store.get_cached_page "H" 3 = some "o3" :=
  ⟨(C3_ocr_failure_policy "f.pdf" "H" .auto true exPagesFail [3, 1] exStoreH
      (by decide) (by decide)).1,
    (C3_ocr_failure_policy "f.pdf" "H" .auto true exPagesFail [3, 1] exStoreH
      (by decide) (by decide)).2 3 ⟨true, "l3", .ok "o3"⟩ "o3" (by decide)
      (by decide) (by decide) rfl⟩

/-- Claim C4 counterexample: with retry budget remaining (attempt 0 of 3), a
429 without a `Retry-After` header is re-raised immediately — one call, no
sleep, no retry — even though the next attempt would have succeeded; and a
429 whose header is neither a digit string nor a parseable date raises a
`ValueError` instead of sleeping.  This refutes the claim that on *every*
429 with budget remaining the controller sleeps and retries. -/
theorem C4_counterexample_no_usable_hint :
    geminiOcrWithRetry exOutcomesNoHint pdNone 0 2 =
      ⟨.error (.client exNoHintErr), 1, []⟩ ∧
    exOutcomesNoHint 1 = .ok "recovered" ∧
    geminiOcrWithRetry (fun _ => .clientErr ⟨429, some " xyz "⟩) pdNone 0 2 =
      ⟨.error (.valueError "xyz"), 1, []⟩ := by
  decide

/-- Claim C4 witness: two 429s carrying the digit hints 7 and 12 sleep
exactly those durations and are each followed by a retry. -/
theorem C4_retry_backoff_amended_witness :
    (geminiOcrWithRetry exOutcomesDigits pdNone 0 2).sleeps.take 2 =
      (List.range 2).map
        (fun j => outcomeDelay pdNone 0 (exOutcomesDigits j)) ∧
    2 + 1 ≤ (geminiOcrWithRetry exOutcomesDigits pdNone 0 2).calls :=
  (C4_retry_backoff_amended exOutcomesDigits pdNone 0).2.1 2 (by decide)
    (by decide)

/-- Claim C5 counterexample: a 429 `ClientError` with no `Retry-After`
header surfaces to the caller on the very first attempt (1 call of the 3
allowed — retry attempts remained), refuting the claim that a 429 never
surfaces while budget remains. -/
theorem C5_counterexample_429_surfaces :
    geminiOcrWithRetry (fun _ => .clientErr exNoHintErr) pdNone 7 2 =
      ⟨.error (.client exNoHintErr), 1, []⟩ := by
  decide

/-- Claim C5 witness: three consecutive 429s with a usable digit hint
exhaust the budget; the run performs 3 calls, sleeps twice, and surfaces the
final 429 client error itself — not the dead retries-exhausted error. -/
theorem C5_error_propagation_amended_witness :
    geminiOcrWithRetry (fun _ => .clientErr exHint7Err) pdNone 0 2 =
      ⟨.error (.client exHint7Err), 3,
        (List.range 2).map
          (fun i => outcomeDelay pdNone 0
            ((fun _ => OcrOutcome.clientErr exHint7Err) i))⟩ ∧
    (geminiOcrWithRetry (fun _ => .clientErr exHint7Err) pdNone 0 2).result ≠
      .error (.runtime "Gemini OCR retries exhausted.") :=
  (C5_error_propagation_amended (fun _ => .clientErr exHint7Err) pdNone
    0).2.2 (by decide) exHint7Err rfl (by decide)

/-- Claim C6 counterexample: three tables refuting the claim as universally
stated — a zero-row table yields output with no separator row at all; a
table with an out-of-bounds cell raises `IndexError` instead of producing a
pipe table; a table with two cells at the same position loses the first
cell's text (only `y` survives), so not every cell's text is placed. -/
theorem C6_counterexample_degenerate_tables :
    (buildMarkdownTable exTableZeroRows = .ok "" ∧
      (bodyLinesSpec exTableZeroRows).count (mdSeparatorRow 2) = 0) ∧
    buildMarkdownTable exTableOOB =
      .error "IndexError: list assignment index out of range" ∧
    buildMarkdownTable
      ⟨1, 1, [⟨0, 0, none, none, none, "x"⟩, ⟨0, 0, none, none, none, "y"⟩],
        none, []⟩ = .ok "| y |\n| --- |" := by
  decide

/-- Claim C6 witness: the 2×2 header/body table with caption and footnote. -/
theorem C6_markdown_table_amended_witness :
    buildMarkdownTable exTablebasic = .ok (specMarkdownTable exTablebasic) ∧
    bodyLinesSpec exTablebasic =
      (((List.range exTablebasic.row_count).map fun r =>
        mdRow (dataRowSpec exTablebasic r)).take
          (sepAfterSpec exTablebasic + 1)) ++
        mdSeparatorRow exTablebasic.column_count ::
        (((List.range exTablebasic.row_count).map fun r =>
          mdRow (dataRowSpec exTablebasic r)).drop
            (sepAfterSpec exTablebasic + 1)) ∧
    (∀ r, (dataRowSpec exTablebasic r).length =
      exTablebasic.column_count) ∧
    (∀ cell ∈ exTablebasic.cells,
      (dataRowSpec exTablebasic cell.row_index)[cell.column_index]? =
        some (cleanCellContent cell.content)) :=
  C6_markdown_table_amended exTablebasic (by decide) (by decide) (by decide)
    (by decide)

/-- Claim C7 counterexample: in a table whose row 0 holds a spanning
`columnHeader` cell and a plain content cell, the source renders the content
cell as `<th>` (whole header row), differing from the claim's per-cell tag
rule, which would render it as `<td>`. -/
theorem C7_counterexample_th_rule :
    buildHtmlTable exTableSpan ≠ specHtmlTableClaim exTableSpan ∧
    buildHtmlTable exTableSpan =
      "<table>\n  <tr><th colspan=\"2\">A</th><th>B</th></tr>\n</table>" ∧
    specHtmlTableClaim exTableSpan =
      "<table>\n  <tr><th colspan=\"2\">A</th><td>B</td></tr>\n</table>" := by
  decide

/-- Claim C7 witness: the spanning-header table. -/
theorem C7_html_table_amended_witness :
    buildHtmlTable exTableSpan = specHtmlTableAmended exTableSpan :=
  C7_html_table_amended exTableSpan

/-- Claim C8 witness: the example record has stale mtime 3 against current
mtime 5 but an identical hash, so only the stored mtime changes. -/
theorem C8_incremental_skip_paths_witness :
    indexSingleFile exMakeDocId exChunkFn true exIndexInput "lib" false
      exStateWithRecord =
      (⟨"/docs/note.txt", true, none⟩,
        ⟨exStateWithRecord.meta.update_document_mtime exRecord.doc_id
          exIndexInput.current_mtime, exStateWithRecord.vec⟩, []) ∧
    (exStateWithRecord.meta.update_document_mtime exRecord.doc_id
      exIndexInput.current_mtime).documents.map eraseMtime =
      exStateWithRecord.meta.documents.map eraseMtime ∧
    (exStateWithRecord.meta.update_document_mtime exRecord.doc_id
      exIndexInput.current_mtime).page_cache =
      exStateWithRecord.meta.page_cache ∧
    (exStateWithRecord.meta.update_document_mtime exRecord.doc_id
      exIndexInput.current_mtime).get_document_by_path
      exIndexInput.abs_path "lib" =
      some { exRecord with file_mtime := exIndexInput.current_mtime } :=
  (C8_incremental_skip_paths exMakeDocId exChunkFn true exIndexInput "lib"
    exStateWithRecord exRecord (by decide) (by decide) (by decide)).2
    (by decide) (by decide)

/-- Claim C9 (code bug): with the Azure Document Intelligence client
configured in the application context, extraction during indexing still
never reaches the Azure whole-document path: `_index_single_file` does not
forward `app.azure_di_client` to `extract_document` (indexing.py:105-112),
so `auto` silently falls back to the hybrid per-page path and an explicit
`azure` method raises the configuration RuntimeError — although
`extract_pdf` itself, given the client, would take the Azure path. -/
theorem C9_azure_client_not_forwarded :
    indexerExtractionPath exAppBoth .auto = .hybridPath ∧
    indexerExtractionPath exAppBoth .azure = .azureConfigError ∧
    extractPdfPath .auto true = .azurePath ∧
    extractPdfPath .azure true = .azurePath := by
  decide

/-- Claim C10: for every non-spanning table whose cells all satisfy
`row_index < row_count` and `column_index < col_count`, the markdown builder
performs no out-of-bounds grid access and returns a rendered table; and for
a table violating the precondition, the grid placement fails with the
`IndexError` rather than rendering. -/
theorem C10_markdown_grid_bounds :
    (∀ t : DocumentTable, needsHtmlTable t = false →
      (∀ cell ∈ t.cells, cell.row_index < t.row_count ∧
        cell.column_index < t.column_count) →
      (buildMarkdownTable t).isOk = true) ∧
    buildMarkdownTable exTableOOB =
      .error "IndexError: list assignment index out of range" := by
  constructor
  · intro t hspan hb
    unfold buildMarkdownTable
    rw [hspan]
    simp only [Bool.false_eq_true, if_false]
    have hg0len : (List.replicate t.row_count
        (List.replicate t.column_count "")).length = t.row_count := by simp
    obtain ⟨g2, hr2, hfill, _, _, _⟩ :=
      fillGrid_some t.column_count t.cells
        (List.replicate t.row_count (List.replicate t.column_count "")) []
        (fun cell hc => by rw [hg0len]; exact hb cell hc)
        (fun row hrow => by rw [List.eq_of_mem_replicate hrow]; simp)
    rw [hfill]
    rfl
  · decide

/-- Claim C10 witness: the plain 2×2 table is rendered without error. -/
theorem C10_markdown_grid_bounds_witness :
    (buildMarkdownTable exTablebasic).isOk = true :=
  C10_markdown_grid_bounds.1 exTablebasic (by decide) (by decide)

end McpLocalRag
